import Mathlib

/-! The `todo-app` root component of the atom demo.

A shallow embedding of `demo/todo-app/index.js`, the module that defines and registers the
root component of the demo, together with the atom store and the component binder that
the root component is built on.
-/

namespace AtomDemo

/-! ## Templates -/

/-- The result of the `html` template tag: the static strings of the literal and the
interpolated values between them. -/
structure TemplateResult where
  strings : List String
  values : List String
  deriving DecidableEq, Repr

/-- The `html` tag applied to a template literal. -/
def html (strings : List String) (values : List String) : TemplateResult :=
  ⟨strings, values⟩

/-- Tokens of a markup string. -/
inductive Token where
  | openTag (name : String)
  | closeTag (name : String)
  | text (s : String)
  deriving DecidableEq, Repr

/-- Markup tree of a template. -/
inductive Node where
  | text (s : String)
  | element (tag : String) (children : List Node)
  deriving Repr

/-- Scanner state: inside character data, or inside a tag after its `<`. -/
inductive Mode where
  | data (buf : List Char)
  | tag (buf : List Char)
  deriving DecidableEq, Repr

/-- Closes the pending run of character data, if there is one. -/
def flushText (buf : List Char) (toks : List Token) : List Token :=
  match buf with
  | [] => toks
  | _ => Token.text (String.mk buf.reverse) :: toks

/-- The token of a tag whose content between `<` and `>` is `body`. -/
def tagToken (body : List Char) : Token :=
  match body with
  | '/' :: name => Token.closeTag (String.mk name)
  | name => Token.openTag (String.mk (name.takeWhile (fun c => !c.isWhitespace)))

/-- Splits markup into tags and character data; `none` when a tag is left open. The
tokens are accumulated in reverse. -/
def scan : List Char → Mode → List Token → Option (List Token)
  | [], Mode.data buf, toks => some (flushText buf toks).reverse
  | [], Mode.tag _, _ => none
  | c :: cs, Mode.data buf, toks =>
    if c = '<' then scan cs (Mode.tag []) (flushText buf toks)
    else scan cs (Mode.data (c :: buf)) toks
  | c :: cs, Mode.tag buf, toks =>
    if c = '>' then scan cs (Mode.data []) (tagToken buf.reverse :: toks)
    else scan cs (Mode.tag (c :: buf)) toks

/-- Builds the markup tree from tokens. `stack` holds the open elements, innermost first,
each with the nodes that precede it in its parent; `acc` holds the nodes of the current
element in reverse. -/
def build : List Token → List (String × List Node) → List Node → Option (List Node)
  | [], [], acc => some acc.reverse
  | [], _ :: _, _ => none
  | Token.text s :: ts, stack, acc => build ts stack (Node.text s :: acc)
  | Token.openTag n :: ts, stack, acc => build ts ((n, acc) :: stack) []
  | Token.closeTag _ :: _, [], _ => none
  | Token.closeTag n :: ts, (m, outer) :: stack, acc =>
    if n = m then build ts stack (Node.element m acc.reverse :: outer) else none

/-- The markup tree of a template without interpolations: its static strings joined. -/
def parseTemplate (t : TemplateResult) : Option (List Node) :=
  match scan (String.join t.strings).data (Mode.data []) [] with
  | none => none
  | some toks => build toks [] []

/-- Tags of the element nodes of a list of nodes, in order. -/
def elementTags : List Node → List String
  | [] => []
  | Node.element tag _ :: ns => tag :: elementTags ns
  | Node.text _ :: ns => elementTags ns

/-- Character data of the text nodes of a list of nodes, in order. -/
def textRuns : List Node → List String
  | [] => []
  | Node.text s :: ns => s :: textRuns ns
  | Node.element _ _ :: ns => textRuns ns

/-- Children of the element nodes of a list of nodes, in order. -/
def elementChildren : List Node → List (List Node)
  | [] => []
  | Node.element _ cs :: ns => cs :: elementChildren ns
  | Node.text _ :: ns => elementChildren ns

/-- Whether a string consists of white space only. -/
def isBlank (s : String) : Bool :=
  s.data.all Char.isWhitespace


/-! ## Atom store -/

/-- Atoms are identified by a key. -/
abbrev Key := String

/-- Modelled from the spec: a listener registered with the store of the missing mixin
module: the binder's listener of component `c`, or a listener of code outside the
binder. -/
inductive Listener where
  | comp (c : Nat)
  | ext (n : Nat)
  deriving DecidableEq, Repr

/-- Modelled from the spec: a subscription in the store of the missing mixin module, one
registration of a listener with an atom; `sid` identifies the registration. -/
structure Sub where
  sid : Nat
  listener : Listener
  deriving DecidableEq, Repr

/-- Modelled from the spec: the declaration of an atom, missing from the sources with the
rest of the mixin module `index.js`: its declared default value and its equality policy
(`same old new` holds when a write of `new` over `old` is no change). -/
structure AtomDecl (V : Type) where
  dflt : V
  same : V → V → Bool

/-- The declarations of all atoms, by key. -/
abbrev Decls (V : Type) := Key → AtomDecl V

/-- Modelled from the spec: an atom of the store of the missing mixin module: the current
value and the subscribers in subscription order. -/
structure Atom (V : Type) where
  value : V
  subs : List Sub

/-- Modelled from the spec: the atom store of the missing mixin module, a registry of
atoms by key; `nextSid` numbers the registrations. -/
structure Store (V : Type) where
  atoms : Key → Option (Atom V)
  nextSid : Nat

/-- Modelled from the spec: the unsubscribe handle of the missing store, the capability
returned by `subscribe` that removes exactly that registration. -/
structure Handle where
  key : Key
  sid : Nat
  deriving DecidableEq, Repr

/-- Modelled from the spec: a notification of the missing store, delivered to one
registration: the key and the new value. -/
structure Notification (V : Type) where
  sub : Sub
  key : Key
  value : V
  deriving DecidableEq, Repr

/-- The store with no atom. -/
def Store.empty {V : Type} : Store V :=
  ⟨fun _ => none, 0⟩

/-- The atom under `k`, as it is or as it is created on first access: with the declared
default and no subscriber. -/
def Store.cell {V : Type} (d : Decls V) (k : Key) (s : Store V) : Atom V :=
  match s.atoms k with
  | some a => a
  | none => ⟨(d k).dflt, []⟩

/-- The subscribers of `k` in subscription order; none when the atom does not exist. -/
def Store.subsOf {V : Type} (s : Store V) (k : Key) : List Sub :=
  match s.atoms k with
  | some a => a.subs
  | none => []

/-- Modelled from the spec: `get(key)` of the missing store: the current value; an absent
atom is created with its declared default. -/
def Store.get {V : Type} (d : Decls V) (k : Key) (s : Store V) : V × Store V :=
  ((s.cell d k).value, { s with atoms := Function.update s.atoms k (some (s.cell d k)) })

/-- Modelled from the spec: `set(key, newValue)` of the missing store: replaces the value
and, when the new value differs from the old one by the equality policy of the atom,
notifies all current subscribers of the key in subscription order, once each. The result
holds the notifications delivered during the call. -/
def Store.set {V : Type} (d : Decls V) (k : Key) (v : V) (s : Store V) :
    List (Notification V) × Store V :=
  let a := s.cell d k
  (if (d k).same a.value v then [] else a.subs.map (fun sb => ⟨sb, k, v⟩),
   { s with atoms := Function.update s.atoms k (some { a with value := v }) })

/-- Modelled from the spec: `subscribe(key, listener)` of the missing store: registers the
listener after the current subscribers and returns the handle of the registration. -/
def Store.subscribe {V : Type} (d : Decls V) (k : Key) (l : Listener) (s : Store V) :
    Handle × Store V :=
  let a := s.cell d k
  (⟨k, s.nextSid⟩,
   { atoms := Function.update s.atoms k (some { a with subs := a.subs ++ [⟨s.nextSid, l⟩] }),
     nextSid := s.nextSid + 1 })

/-- Modelled from the spec: invoking an unsubscribe handle of the missing store: removes
exactly that registration; a second invocation finds nothing to remove. -/
def Store.unsubscribe {V : Type} (h : Handle) (s : Store V) : Store V :=
  match s.atoms h.key with
  | none => s
  | some a =>
    { s with
      atoms := Function.update s.atoms h.key
        (some { a with subs := a.subs.filter (fun sb => sb.sid != h.sid) }) }

/-! ## Component binder -/

/-- Modelled from the spec: the metadata the binder of the missing mixin module keeps on a
component instance: the handles of its subscriptions, the dirty mark and whether the
component has been torn down; `renders` counts the renders the host has run. -/
structure Comp where
  handles : List Handle
  dirty : Bool
  tornDown : Bool
  renders : Nat
  deriving DecidableEq, Repr

/-- A component instance right after construction. -/
def Comp.fresh : Comp :=
  ⟨[], false, false, 0⟩

/-- Modelled from the spec: the state the missing mixin module works on: the store, the
component instances, and the host. `requests` are the update requests handed to the host
framework and not yet run, `extHandles` the handles held by code outside the binder,
`invoked` the handles invoked so far and `delivered` the notifications delivered so
far. -/
structure World (V : Type) where
  store : Store V
  comps : Nat → Comp
  requests : List Nat
  extHandles : List Handle
  invoked : List Handle
  delivered : List (Notification V)

/-- The world at load: an empty store and no component yet used. -/
def World.empty {V : Type} : World V :=
  ⟨Store.empty, fun _ => Comp.fresh, [], [], [], []⟩

/-- Replaces the metadata of component `c`. -/
def World.setComp {V : Type} (c : Nat) (m : Comp) (w : World V) : World V :=
  { w with comps := Function.update w.comps c m }

/-- Whether component `c` holds a subscription to `k`. -/
def Binder.subscribed {V : Type} (c : Nat) (k : Key) (w : World V) : Bool :=
  (w.comps c).handles.any (fun h => h.key == k)

/-- Modelled from the spec: the listener of the binder of the missing mixin module: on a
notification the component is marked dirty and one update is requested from the host; a
component that is already dirty has its request pending. -/
def Binder.notify {V : Type} (c : Nat) (w : World V) : World V :=
  if (w.comps c).dirty then w
  else { (w.setComp c { w.comps c with dirty := true }) with requests := w.requests ++ [c] }

/-- Modelled from the spec: delivery of one notification to its listener: the binder's
listener runs; what a listener of outside code does is not followed. -/
def World.deliver {V : Type} (w : World V) (n : Notification V) : World V :=
  match n.sub.listener with
  | Listener.comp c => Binder.notify c { w with delivered := w.delivered ++ [n] }
  | Listener.ext _ => { w with delivered := w.delivered ++ [n] }

/-- Modelled from the spec: a write to the missing store with its notifications delivered,
in order, before it returns. -/
def World.set {V : Type} (d : Decls V) (k : Key) (v : V) (w : World V) : World V :=
  (w.store.set d k v).1.foldl World.deliver { w with store := (w.store.set d k v).2 }

/-- Modelled from the spec: a read of an atom by a component through the binder of the
missing mixin module: the store's `get`, and a `subscribe` for the key unless the
component already holds a subscription to it. -/
def Binder.read {V : Type} (d : Decls V) (c : Nat) (k : Key) (w : World V) : V × World V :=
  if Binder.subscribed c k w then
    ((w.store.get d k).1, { w with store := (w.store.get d k).2 })
  else
    ((w.store.get d k).1,
     World.setComp c
       { w.comps c with handles :=
          (w.comps c).handles ++ [((w.store.get d k).2.subscribe d k (Listener.comp c)).1] }
       { w with store := ((w.store.get d k).2.subscribe d k (Listener.comp c)).2 })

/-- Modelled from the spec: the reads of one render through the binder, in order, with the
values read. -/
def Binder.readAll {V : Type} (d : Decls V) (c : Nat) : List Key → World V → List V × World V
  | [], w => ([], w)
  | k :: ks, w =>
    ((Binder.read d c k w).1 :: (Binder.readAll d c ks (Binder.read d c k w).2).1,
     (Binder.readAll d c ks (Binder.read d c k w).2).2)

/-- Modelled from the spec: the update of component `c` that the host framework runs on
its next tick: the pending request and the dirty mark are cleared and the component
renders, reading the atoms `ks`. -/
def Binder.update {V : Type} (d : Decls V) (c : Nat) (ks : List Key) (w : World V) :
    List V × World V :=
  Binder.readAll d c ks
    { (w.setComp c { w.comps c with dirty := false, renders := (w.comps c).renders + 1 }) with
      requests := w.requests.filter (fun r => r != c) }

/-- Modelled from the spec: the write method of the binder of the missing mixin module: a
write on a torn down component is rejected with a message; otherwise it forwards to the
store's `set`. -/
def Binder.write {V : Type} (d : Decls V) (c : Nat) (k : Key) (v : V) (w : World V) :
    Except String (World V) :=
  if (w.comps c).tornDown then
    Except.error ("atom write on a component that has been torn down: " ++ k)
  else Except.ok (w.set d k v)

/-- Modelled from the spec: teardown by the binder of the missing mixin module: every
stored handle is invoked, in order, and none is kept. -/
def Binder.teardown {V : Type} (c : Nat) (w : World V) : World V :=
  { (w.setComp c { w.comps c with handles := [], tornDown := true }) with
    store := (w.comps c).handles.foldl (fun s h => s.unsubscribe h) w.store
    invoked := w.invoked ++ (w.comps c).handles }

/-- The operations on the world: the store's own interface used by outside code, and the
binder's. -/
inductive Op (V : Type) where
  | get (k : Key)
  | set (k : Key) (v : V)
  | subscribe (k : Key) (n : Nat)
  | unsubscribe (i : Nat)
  | read (c : Nat) (k : Key)
  | update (c : Nat) (ks : List Key)
  | write (c : Nat) (k : Key) (v : V)
  | teardown (c : Nat)

/-- One operation. Outside code invokes the handles it holds by their position; a
rejected write leaves the world as it is. -/
def World.step {V : Type} (d : Decls V) (w : World V) : Op V → World V
  | Op.get k => { w with store := (w.store.get d k).2 }
  | Op.set k v => w.set d k v
  | Op.subscribe k n =>
    { w with store := (w.store.subscribe d k (Listener.ext n)).2
             extHandles := w.extHandles ++ [(w.store.subscribe d k (Listener.ext n)).1] }
  | Op.unsubscribe i =>
    match w.extHandles.get? i with
    | none => w
    | some h => { w with store := w.store.unsubscribe h, invoked := w.invoked ++ [h] }
  | Op.read c k => (Binder.read d c k w).2
  | Op.update c ks => (Binder.update d c ks w).2
  | Op.write c k v =>
    match Binder.write d c k v w with
    | Except.ok w1 => w1
    | Except.error _ => w
  | Op.teardown c => Binder.teardown c w

/-- A sequence of operations, from left to right. -/
def World.run {V : Type} (d : Decls V) (ops : List (Op V)) (w : World V) : World V :=
  ops.foldl (World.step d) w

/-! ## The host: classes and the custom element registry -/

/-- A class object. `uid` is the identity of the object: two class objects are the same
class when their `uid` agrees. A class without `extends` is a `root`. -/
inductive ClassObj where
  | root (uid : Nat) (name : String) (methods : List String)
  | ext (uid : Nat) (name : String) (methods : List String) (parent : ClassObj)
  deriving DecidableEq, Repr

/-- Identity of a class object. -/
def ClassObj.uid : ClassObj → Nat
  | ClassObj.root u _ _ => u
  | ClassObj.ext u _ _ _ => u

/-- Name of a class. -/
def ClassObj.name : ClassObj → String
  | ClassObj.root _ n _ => n
  | ClassObj.ext _ n _ _ => n

/-- Methods the class body itself defines. -/
def ClassObj.methods : ClassObj → List String
  | ClassObj.root _ _ ms => ms
  | ClassObj.ext _ _ ms _ => ms

/-- The class named in the `extends` clause. -/
def ClassObj.parent : ClassObj → Option ClassObj
  | ClassObj.root _ _ _ => none
  | ClassObj.ext _ _ _ p => some p

/-- The prototype chain: the class, then its ancestors, nearest first. -/
def ClassObj.chain : ClassObj → List ClassObj
  | ClassObj.root u n ms => [ClassObj.root u n ms]
  | ClassObj.ext u n ms p => ClassObj.ext u n ms p :: p.chain

/-- The host realm: the counter that gives new class objects their identity, and the
custom element registry as the list of definitions in the order they were made. Every
registered class is an object of the realm. -/
structure Realm where
  nextUid : Nat
  registry : List (String × ClassObj)
  closed : ∀ e ∈ registry, e.2.uid < nextUid

/-- The class registered under a name, if any. -/
def Realm.lookup (r : Realm) (name : String) : Option ClassObj :=
  (r.registry.find? (fun e => e.1 == name)).map Prod.snd

/-- Characters a custom element name may contain after its first. -/
def pcenChar (c : Char) : Bool :=
  let n := c.toNat
  c == '-' || c == '.' || c == '_' || c.isDigit || c.isLower || n == 0xB7 ||
  (0xC0 ≤ n && n ≤ 0xD6) || (0xD8 ≤ n && n ≤ 0xF6) || (0xF8 ≤ n && n ≤ 0x37D) ||
  (0x37F ≤ n && n ≤ 0x1FFF) || (0x200C ≤ n && n ≤ 0x200D) || (0x203F ≤ n && n ≤ 0x2040) ||
  (0x2070 ≤ n && n ≤ 0x218F) || (0x2C00 ≤ n && n ≤ 0x2FEF) || (0x3001 ≤ n && n ≤ 0xD7FF) ||
  (0xF900 ≤ n && n ≤ 0xFDCF) || (0xFDF0 ≤ n && n ≤ 0xFFFD) || (0x10000 ≤ n && n ≤ 0xEFFFF)

/-- Names the host reserves, which no custom element may take. -/
def reservedNames : List String :=
  ["annotation-xml", "color-profile", "font-face", "font-face-src", "font-face-uri",
   "font-face-format", "font-face-name", "missing-glyph"]

/-- Whether a name is a valid custom element name: it starts with a lower case letter,
contains a hyphen, has only name characters and is not reserved. -/
def validName (name : String) : Bool :=
  match name.data with
  | [] => false
  | c :: cs =>
    c.isLower && cs.all pcenChar && cs.contains '-' && !reservedNames.contains name

/-- The host's `customElements.define(name, ctor)` for a class object of the realm: it
throws when the name is not valid, when the name is already defined and when the class
is already registered; otherwise the definition is added. -/
def customElements.define (name : String) (ctor : ClassObj) (r : Realm)
    (h : ctor.uid < r.nextUid) : Except String Realm :=
  if !validName name then
    Except.error ("SyntaxError: " ++ name ++ " is not a valid custom element name")
  else if r.registry.any (fun e => e.1 == name) then
    Except.error ("NotSupportedError: the name " ++ name ++ " has already been used")
  else if r.registry.any (fun e => e.2.uid == ctor.uid) then
    Except.error "NotSupportedError: this constructor has already been used"
  else
    Except.ok
      { r with
        registry := r.registry ++ [(name, ctor)]
        closed := fun e he => by
          rcases List.mem_append.1 he with h1 | h1
          · exact r.closed e h1
          · rw [List.mem_singleton.1 h1]; exact h }

/-- Modelled from the spec: the mixin `LitAtom` of the missing module `index.js`, a
function from a base component class to a new class built on it that carries the
binder; the members of that class are not listed. -/
def LitAtom (base : ClassObj) (r : Realm) : ClassObj × Realm :=
  (ClassObj.ext r.nextUid "LitAtom" [] base,
   { r with
     nextUid := r.nextUid + 1
     closed := fun e he => Nat.lt_succ_of_lt (r.closed e he) })

/-! ## The module `demo/todo-app/index.js` -/

/-- The import declarations of the module, in source order: the imported names and the
module specifier. An import with no name is for the side effect of the module. -/
def moduleImports : List (List String × String) :=
  [(["LitElement", "html", "css"], "lit-element"),
   (["LitAtom"], "../../index.js"),
   ([], "./todo-debug.js"),
   ([], "./todo-list.js"),
   ([], "./todo-detail.js")]

/-- Top level items of the module in source order. -/
inductive Item where
  | importDecl (names : List String) (source : String)
  | classDecl (name : String) (mixin : String) (base : String) (methods : List String)
  | defineCall (tag : String) (cls : String)
  deriving DecidableEq, Repr

/-- The items of `demo/todo-app/index.js`. -/
def moduleItems : List Item :=
  moduleImports.map (fun i => Item.importDecl i.1 i.2) ++
  [Item.classDecl "TodoApp" "LitAtom" "LitElement" ["render"],
   Item.defineCall "todo-app" "TodoApp"]

/-- Specifiers of the modules imported for their side effect only, in source order. -/
def sideEffectImports : List String :=
  (moduleImports.filter (fun i => i.1.isEmpty)).map Prod.snd

/-- File name of a module specifier without its directory and its extension. -/
def moduleStem (source : String) : String :=
  let base := (source.data.reverse.takeWhile (fun c => c != '/')).reverse
  String.mk ((base.reverse.dropWhile (fun c => c != '.')).drop 1).reverse

/-- `TodoApp.render`: the template literal of the three child elements. The method takes
the instance and the world it runs in and gives back the world with the template. -/
def TodoApp.render {V : Type} (_self : Nat) (w : World V) : TemplateResult × World V :=
  (html ["\n      <todo-debug></todo-debug>\n      <todo-list></todo-list>\n      <todo-detail></todo-detail>\n    "] [], w)

/-- The atoms `TodoApp.render` reads, in order: its body holds no read. -/
def TodoApp.reads : List Key :=
  []

/-- `class TodoApp extends LitAtom(LitElement)` with the one method `render`: evaluates the
mixin application, then creates the class. -/
def TodoApp.declare (LitElement : ClassObj) (r : Realm) : ClassObj × Realm :=
  (ClassObj.ext (LitAtom LitElement r).2.nextUid "TodoApp" ["render"] (LitAtom LitElement r).1,
   { (LitAtom LitElement r).2 with
     nextUid := (LitAtom LitElement r).2.nextUid + 1
     closed := fun e he => Nat.lt_succ_of_lt ((LitAtom LitElement r).2.closed e he) })

/-- Evaluation of the module body once its imports are loaded: the class declaration,
then `customElements.define('todo-app', TodoApp)`. -/
def load (LitElement : ClassObj) (r : Realm) : Except String Realm :=
  customElements.define "todo-app" (TodoApp.declare LitElement r).1
    (TodoApp.declare LitElement r).2 (Nat.lt_succ_self _)

/-- The store of the scenarios: integer atoms with default 0, compared by value. -/
def intDecls : Decls Int :=
  fun _ => ⟨0, fun a b => a == b⟩

/-- Whether an operation writes the atom `k`. -/
def Op.writes {V : Type} (k : Key) : Op V → Bool
  | Op.set k1 _ => k1 == k
  | Op.write _ k1 _ => k1 == k
  | _ => false

/-- A host realm in which the three child elements are defined and `todo-app` is not. -/
def demoRealm : Realm :=
  { nextUid := 4
    registry :=
      [("todo-debug", ClassObj.root 1 "TodoDebug" ["render"]),
       ("todo-list", ClassObj.root 2 "TodoList" ["render"]),
       ("todo-detail", ClassObj.root 3 "TodoDetail" ["render"])]
    closed := by decide }

/-! ## Invariants of the worlds the operations produce -/

/-- Registrations of the listener of component `c` with the atom `k`, by their number, in
subscription order. -/
def Store.compSids {V : Type} (s : Store V) (c : Nat) (k : Key) : List Nat :=
  ((s.subsOf k).filter (fun sb => sb.listener == Listener.comp c)).map Sub.sid

/-- Registration numbers of the handles a component holds for the atom `k`. -/
def Comp.sidsFor (m : Comp) (k : Key) : List Nat :=
  (m.handles.filter (fun h => h.key == k)).map Handle.sid

/-- The subscriptions in the store and the handles held agree: the registrations of a
component with an atom are those of the handles it holds for it, at most one per atom;
every handle was issued by the store; handles of different holders have different
numbers; and no held handle has been invoked. -/
structure World.SubsOk {V : Type} (w : World V) : Prop where
  paired : ∀ c k, w.store.compSids c k = (w.comps c).sidsFor k
  single : ∀ c k, ((w.comps c).sidsFor k).length ≤ 1
  bound : ∀ c h, h ∈ (w.comps c).handles → h.sid < w.store.nextSid
  extBound : ∀ h ∈ w.extHandles, h.sid < w.store.nextSid
  invokedBound : ∀ h ∈ w.invoked, h.sid < w.store.nextSid
  extApart : ∀ h ∈ w.extHandles, ∀ c h1, h1 ∈ (w.comps c).handles → h1.sid ≠ h.sid
  compApart : ∀ c c1 h h1, c ≠ c1 → h ∈ (w.comps c).handles → h1 ∈ (w.comps c1).handles →
    h.sid ≠ h1.sid
  unused : ∀ c h, h ∈ (w.comps c).handles → ∀ h1 ∈ w.invoked, h1.sid ≠ h.sid

/-- The dirty marks and the pending requests agree: a component is dirty exactly when a
request for it is pending, and no request is pending twice. -/
structure World.ReqsOk {V : Type} (w : World V) : Prop where
  pending : ∀ c, (w.comps c).dirty = true ↔ c ∈ w.requests
  once : w.requests.Nodup

/-! ## The store: values and subscriber lists under each operation -/

theorem Store.cell_get {V : Type} (d : Decls V) (k k1 : Key) (s : Store V) :
    (s.get d k1).2.cell d k = s.cell d k := by
  by_cases h : k = k1
  · subst h; simp [Store.cell, Store.get]
  · simp [Store.cell, Store.get, Function.update, h]

theorem Store.cell_set {V : Type} (d : Decls V) (k k1 : Key) (v : V) (s : Store V) :
    (s.set d k1 v).2.cell d k =
      if k = k1 then { s.cell d k with value := v } else s.cell d k := by
  by_cases h : k = k1
  · subst h; simp [Store.cell, Store.set]
  · simp [Store.cell, Store.set, Function.update, h]

theorem Store.cell_subscribe {V : Type} (d : Decls V) (k k1 : Key) (l : Listener)
    (s : Store V) :
    (s.subscribe d k1 l).2.cell d k =
      if k = k1 then { s.cell d k with subs := (s.cell d k).subs ++ [⟨s.nextSid, l⟩] }
      else s.cell d k := by
  by_cases h : k = k1
  · subst h; simp [Store.cell, Store.subscribe]
  · simp [Store.cell, Store.subscribe, Function.update, h]

theorem Store.cell_unsubscribe {V : Type} (d : Decls V) (k : Key) (h : Handle)
    (s : Store V) :
    (s.unsubscribe h).cell d k =
      if k = h.key then
        { s.cell d k with subs := (s.cell d k).subs.filter (fun sb => sb.sid != h.sid) }
      else s.cell d k := by
  unfold Store.unsubscribe
  by_cases hk : k = h.key
  · subst hk
    cases ha : s.atoms h.key with
    | none => simp [Store.cell, ha]
    | some a => simp [Store.cell, ha]
  · cases ha : s.atoms h.key with
    | none => simp [hk]
    | some a => simp [Store.cell, Function.update, hk]

theorem Store.subsOf_eq_cell {V : Type} (d : Decls V) (k : Key) (s : Store V) :
    s.subsOf k = (s.cell d k).subs := by
  unfold Store.subsOf Store.cell
  cases s.atoms k <;> rfl

theorem Store.subsOf_get {V : Type} (d : Decls V) (k k1 : Key) (s : Store V) :
    (s.get d k1).2.subsOf k = s.subsOf k := by
  rw [Store.subsOf_eq_cell d, Store.subsOf_eq_cell d, Store.cell_get]

theorem Store.subsOf_set {V : Type} (d : Decls V) (k k1 : Key) (v : V) (s : Store V) :
    (s.set d k1 v).2.subsOf k = s.subsOf k := by
  rw [Store.subsOf_eq_cell d, Store.subsOf_eq_cell d, Store.cell_set]
  split <;> rfl

theorem Store.subsOf_subscribe {V : Type} (d : Decls V) (k k1 : Key) (l : Listener)
    (s : Store V) :
    (s.subscribe d k1 l).2.subsOf k =
      if k = k1 then s.subsOf k ++ [⟨s.nextSid, l⟩] else s.subsOf k := by
  rw [Store.subsOf_eq_cell d, Store.subsOf_eq_cell d, Store.cell_subscribe]
  split <;> rfl

theorem Store.subsOf_unsubscribe {V : Type} (k : Key) (h : Handle) (s : Store V) :
    (s.unsubscribe h).subsOf k =
      if k = h.key then (s.subsOf k).filter (fun sb => sb.sid != h.sid) else s.subsOf k := by
  unfold Store.unsubscribe Store.subsOf
  by_cases hk : k = h.key
  · subst hk
    cases ha : s.atoms h.key with
    | none => simp [ha]
    | some a => simp [ha]
  · cases ha : s.atoms h.key with
    | none => simp [hk]
    | some a => simp [Function.update, hk]

theorem Store.nextSid_unsubscribe {V : Type} (h : Handle) (s : Store V) :
    (s.unsubscribe h).nextSid = s.nextSid := by
  unfold Store.unsubscribe
  cases s.atoms h.key <;> rfl

/-- The store after a list of handles has been invoked. -/
theorem Store.cell_unsubscribeAll {V : Type} (d : Decls V) (k : Key) (hs : List Handle)
    (s : Store V) :
    ((hs.foldl (fun s h => s.unsubscribe h) s).cell d k).value = (s.cell d k).value := by
  induction hs generalizing s with
  | nil => rfl
  | cons h hs ih =>
    rw [List.foldl_cons, ih, Store.cell_unsubscribe]
    split <;> rfl

theorem Store.nextSid_unsubscribeAll {V : Type} (hs : List Handle) (s : Store V) :
    (hs.foldl (fun s h => s.unsubscribe h) s).nextSid = s.nextSid := by
  induction hs generalizing s with
  | nil => rfl
  | cons h hs ih => rw [List.foldl_cons, ih, Store.nextSid_unsubscribe]

theorem Store.subsOf_unsubscribeAll {V : Type} (k : Key) (hs : List Handle) (s : Store V) :
    (hs.foldl (fun s h => s.unsubscribe h) s).subsOf k =
      (s.subsOf k).filter (fun sb => !hs.any (fun h => h.key == k && h.sid == sb.sid)) := by
  induction hs generalizing s with
  | nil => simp
  | cons h hs ih =>
    rw [List.foldl_cons, ih, Store.subsOf_unsubscribe]
    by_cases hk : k = h.key
    · subst hk
      rw [if_pos rfl, List.filter_filter]
      apply List.filter_congr
      intro sb _
      by_cases e : h.sid = sb.sid
      · simp [e]
      · have b1 : (h.sid == sb.sid) = false := beq_eq_false_iff_ne.2 e
        have b2 : (sb.sid != h.sid) = true := bne_iff_ne.2 (fun x => e x.symm)
        simp [b1, b2]
    · rw [if_neg hk]
      apply List.filter_congr
      intro sb _
      have : (h.key == k) = false := by rw [beq_eq_false_iff_ne]; exact fun x => hk x.symm
      simp [this]

/-! ## The binder: what each operation changes -/

theorem Binder.notify_store {V : Type} (c : Nat) (w : World V) :
    (Binder.notify c w).store = w.store := by
  unfold Binder.notify; split <;> rfl

theorem Binder.notify_extHandles {V : Type} (c : Nat) (w : World V) :
    (Binder.notify c w).extHandles = w.extHandles := by
  unfold Binder.notify; split <;> rfl

theorem Binder.notify_invoked {V : Type} (c : Nat) (w : World V) :
    (Binder.notify c w).invoked = w.invoked := by
  unfold Binder.notify; split <;> rfl

theorem Binder.notify_delivered {V : Type} (c : Nat) (w : World V) :
    (Binder.notify c w).delivered = w.delivered := by
  unfold Binder.notify; split <;> rfl

theorem Binder.notify_handles {V : Type} (c c1 : Nat) (w : World V) :
    ((Binder.notify c w).comps c1).handles = (w.comps c1).handles := by
  unfold Binder.notify; split
  · rfl
  · by_cases h : c1 = c
    · subst h; simp [World.setComp]
    · simp [World.setComp, Function.update, h]

theorem Binder.notify_tornDown {V : Type} (c c1 : Nat) (w : World V) :
    ((Binder.notify c w).comps c1).tornDown = (w.comps c1).tornDown := by
  unfold Binder.notify; split
  · rfl
  · by_cases h : c1 = c
    · subst h; simp [World.setComp]
    · simp [World.setComp, Function.update, h]

theorem Binder.notify_renders {V : Type} (c c1 : Nat) (w : World V) :
    ((Binder.notify c w).comps c1).renders = (w.comps c1).renders := by
  unfold Binder.notify; split
  · rfl
  · by_cases h : c1 = c
    · subst h; simp [World.setComp]
    · simp [World.setComp, Function.update, h]

theorem Binder.notify_dirty {V : Type} (c c1 : Nat) (w : World V) :
    ((Binder.notify c w).comps c1).dirty = ((w.comps c1).dirty || decide (c1 = c)) := by
  unfold Binder.notify; split
  · next hd =>
    by_cases h : c1 = c
    · subst h; simp [hd]
    · simp [h]
  · by_cases h : c1 = c
    · subst h; simp [World.setComp]
    · simp [World.setComp, Function.update, h]

theorem Binder.notify_requests {V : Type} (c : Nat) (w : World V) :
    (Binder.notify c w).requests =
      if (w.comps c).dirty then w.requests else w.requests ++ [c] := by
  unfold Binder.notify; split <;> rfl

theorem World.deliver_store {V : Type} (w : World V) (n : Notification V) :
    (w.deliver n).store = w.store := by
  unfold World.deliver; split
  · rw [Binder.notify_store]
  · rfl

theorem World.deliver_extHandles {V : Type} (w : World V) (n : Notification V) :
    (w.deliver n).extHandles = w.extHandles := by
  unfold World.deliver; split
  · rw [Binder.notify_extHandles]
  · rfl

theorem World.deliver_invoked {V : Type} (w : World V) (n : Notification V) :
    (w.deliver n).invoked = w.invoked := by
  unfold World.deliver; split
  · rw [Binder.notify_invoked]
  · rfl

theorem World.deliver_delivered {V : Type} (w : World V) (n : Notification V) :
    (w.deliver n).delivered = w.delivered ++ [n] := by
  unfold World.deliver; split
  · rw [Binder.notify_delivered]
  · rfl

theorem World.deliver_handles {V : Type} (w : World V) (n : Notification V) (c1 : Nat) :
    ((w.deliver n).comps c1).handles = (w.comps c1).handles := by
  unfold World.deliver; split
  · rw [Binder.notify_handles]
  · rfl

theorem World.deliver_tornDown {V : Type} (w : World V) (n : Notification V) (c1 : Nat) :
    ((w.deliver n).comps c1).tornDown = (w.comps c1).tornDown := by
  unfold World.deliver; split
  · rw [Binder.notify_tornDown]
  · rfl

theorem World.deliver_renders {V : Type} (w : World V) (n : Notification V) (c1 : Nat) :
    ((w.deliver n).comps c1).renders = (w.comps c1).renders := by
  unfold World.deliver; split
  · rw [Binder.notify_renders]
  · rfl

theorem World.deliver_dirty {V : Type} (w : World V) (n : Notification V) (c1 : Nat) :
    ((w.deliver n).comps c1).dirty =
      ((w.comps c1).dirty || decide (n.sub.listener = Listener.comp c1)) := by
  unfold World.deliver; split
  · next c hc =>
    rw [Binder.notify_dirty, hc]
    by_cases h : c1 = c
    · subst h; simp
    · have : ¬ c = c1 := fun x => h x.symm
      simp [h, this]
  · next m hm => rw [hm]; simp

/-- Delivery keeps the pairing of dirty marks and pending requests. -/
theorem World.deliver_requests {V : Type} (w : World V) (n : Notification V)
    (h1 : ∀ c, (w.comps c).dirty = true ↔ c ∈ w.requests) (h2 : w.requests.Nodup) :
    (∀ c, ((w.deliver n).comps c).dirty = true ↔ c ∈ (w.deliver n).requests) ∧
    (w.deliver n).requests.Nodup := by
  unfold World.deliver; split
  · next c hc =>
    constructor
    · intro c1
      rw [Binder.notify_dirty, Binder.notify_requests]
      show ((w.comps c1).dirty || decide (c1 = c)) = true ↔
        c1 ∈ (if (w.comps c).dirty = true then w.requests else w.requests ++ [c])
      by_cases hd : (w.comps c).dirty = true
      · rw [if_pos hd]
        by_cases h : c1 = c
        · subst h; simp [hd, (h1 c1).1 hd]
        · simp [h, h1 c1]
      · rw [if_neg hd]
        by_cases h : c1 = c
        · subst h; simp
        · simp [h, h1 c1]
    · rw [Binder.notify_requests]
      show (if (w.comps c).dirty = true then w.requests else w.requests ++ [c]).Nodup
      by_cases hd : (w.comps c).dirty = true
      · rw [if_pos hd]; exact h2
      · rw [if_neg hd]
        have hc1 : c ∉ w.requests := fun x => hd ((h1 c).2 x)
        exact List.Nodup.append h2 (List.nodup_singleton c) (by simpa using hc1)
  · exact ⟨h1, h2⟩

theorem World.deliverAll_store {V : Type} (ns : List (Notification V)) (w : World V) :
    (ns.foldl World.deliver w).store = w.store := by
  induction ns generalizing w with
  | nil => rfl
  | cons n ns ih => rw [List.foldl_cons, ih, World.deliver_store]

theorem World.deliverAll_extHandles {V : Type} (ns : List (Notification V)) (w : World V) :
    (ns.foldl World.deliver w).extHandles = w.extHandles := by
  induction ns generalizing w with
  | nil => rfl
  | cons n ns ih => rw [List.foldl_cons, ih, World.deliver_extHandles]

theorem World.deliverAll_invoked {V : Type} (ns : List (Notification V)) (w : World V) :
    (ns.foldl World.deliver w).invoked = w.invoked := by
  induction ns generalizing w with
  | nil => rfl
  | cons n ns ih => rw [List.foldl_cons, ih, World.deliver_invoked]

theorem World.deliverAll_delivered {V : Type} (ns : List (Notification V)) (w : World V) :
    (ns.foldl World.deliver w).delivered = w.delivered ++ ns := by
  induction ns generalizing w with
  | nil => simp
  | cons n ns ih => rw [List.foldl_cons, ih, World.deliver_delivered]; simp

theorem World.deliverAll_handles {V : Type} (ns : List (Notification V)) (w : World V)
    (c1 : Nat) : ((ns.foldl World.deliver w).comps c1).handles = (w.comps c1).handles := by
  induction ns generalizing w with
  | nil => rfl
  | cons n ns ih => rw [List.foldl_cons, ih, World.deliver_handles]

theorem World.deliverAll_tornDown {V : Type} (ns : List (Notification V)) (w : World V)
    (c1 : Nat) : ((ns.foldl World.deliver w).comps c1).tornDown = (w.comps c1).tornDown := by
  induction ns generalizing w with
  | nil => rfl
  | cons n ns ih => rw [List.foldl_cons, ih, World.deliver_tornDown]

theorem World.deliverAll_renders {V : Type} (ns : List (Notification V)) (w : World V)
    (c1 : Nat) : ((ns.foldl World.deliver w).comps c1).renders = (w.comps c1).renders := by
  induction ns generalizing w with
  | nil => rfl
  | cons n ns ih => rw [List.foldl_cons, ih, World.deliver_renders]

theorem World.deliverAll_dirty {V : Type} (ns : List (Notification V)) (w : World V)
    (c1 : Nat) :
    ((ns.foldl World.deliver w).comps c1).dirty =
      ((w.comps c1).dirty || ns.any (fun n => decide (n.sub.listener = Listener.comp c1))) := by
  induction ns generalizing w with
  | nil => simp
  | cons n ns ih =>
    rw [List.foldl_cons, ih, World.deliver_dirty, List.any_cons, Bool.or_assoc]

theorem World.deliverAll_requests {V : Type} (ns : List (Notification V)) (w : World V)
    (h1 : ∀ c, (w.comps c).dirty = true ↔ c ∈ w.requests) (h2 : w.requests.Nodup) :
    (∀ c, ((ns.foldl World.deliver w).comps c).dirty = true ↔
      c ∈ (ns.foldl World.deliver w).requests) ∧
    (ns.foldl World.deliver w).requests.Nodup := by
  induction ns generalizing w with
  | nil => exact ⟨h1, h2⟩
  | cons n ns ih =>
    rw [List.foldl_cons]
    exact ih (w.deliver n) (World.deliver_requests w n h1 h2).1
      (World.deliver_requests w n h1 h2).2

theorem World.set_store {V : Type} (d : Decls V) (k : Key) (v : V) (w : World V) :
    (w.set d k v).store = (w.store.set d k v).2 := by
  unfold World.set; rw [World.deliverAll_store]

theorem World.set_delivered {V : Type} (d : Decls V) (k : Key) (v : V) (w : World V) :
    (w.set d k v).delivered = w.delivered ++ (w.store.set d k v).1 := by
  unfold World.set; rw [World.deliverAll_delivered]

theorem World.set_tornDown {V : Type} (d : Decls V) (k : Key) (v : V) (w : World V)
    (c : Nat) : ((w.set d k v).comps c).tornDown = (w.comps c).tornDown := by
  unfold World.set; rw [World.deliverAll_tornDown]

theorem World.set_renders {V : Type} (d : Decls V) (k : Key) (v : V) (w : World V)
    (c : Nat) : ((w.set d k v).comps c).renders = (w.comps c).renders := by
  unfold World.set; rw [World.deliverAll_renders]

theorem World.set_handles {V : Type} (d : Decls V) (k : Key) (v : V) (w : World V)
    (c : Nat) : ((w.set d k v).comps c).handles = (w.comps c).handles := by
  unfold World.set; rw [World.deliverAll_handles]

theorem Binder.read_store {V : Type} (d : Decls V) (c : Nat) (k : Key) (w : World V) :
    (Binder.read d c k w).2.store =
      if Binder.subscribed c k w then (w.store.get d k).2
      else ((w.store.get d k).2.subscribe d k (Listener.comp c)).2 := by
  unfold Binder.read; split <;> rfl

theorem Binder.read_handles {V : Type} (d : Decls V) (c c1 : Nat) (k : Key) (w : World V) :
    ((Binder.read d c k w).2.comps c1).handles =
      if Binder.subscribed c k w = true ∨ c1 ≠ c then (w.comps c1).handles
      else (w.comps c1).handles ++ [⟨k, w.store.nextSid⟩] := by
  unfold Binder.read
  by_cases hs : Binder.subscribed c k w = true
  · simp [hs]
  · by_cases h : c1 = c
    · subst h; simp [hs, World.setComp, Store.subscribe, Store.get]
    · simp [hs, h, World.setComp, Function.update]

theorem Binder.read_tornDown {V : Type} (d : Decls V) (c c1 : Nat) (k : Key) (w : World V) :
    ((Binder.read d c k w).2.comps c1).tornDown = (w.comps c1).tornDown := by
  unfold Binder.read; split
  · rfl
  · by_cases h : c1 = c
    · subst h; simp [World.setComp]
    · simp [World.setComp, Function.update, h]

theorem Binder.read_renders {V : Type} (d : Decls V) (c c1 : Nat) (k : Key) (w : World V) :
    ((Binder.read d c k w).2.comps c1).renders = (w.comps c1).renders := by
  unfold Binder.read; split
  · rfl
  · by_cases h : c1 = c
    · subst h; simp [World.setComp]
    · simp [World.setComp, Function.update, h]

theorem Binder.read_dirty {V : Type} (d : Decls V) (c c1 : Nat) (k : Key) (w : World V) :
    ((Binder.read d c k w).2.comps c1).dirty = (w.comps c1).dirty := by
  unfold Binder.read; split
  · rfl
  · by_cases h : c1 = c
    · subst h; simp [World.setComp]
    · simp [World.setComp, Function.update, h]

theorem Binder.read_requests {V : Type} (d : Decls V) (c : Nat) (k : Key) (w : World V) :
    (Binder.read d c k w).2.requests = w.requests := by
  unfold Binder.read; split <;> rfl

theorem Binder.read_extHandles {V : Type} (d : Decls V) (c : Nat) (k : Key) (w : World V) :
    (Binder.read d c k w).2.extHandles = w.extHandles := by
  unfold Binder.read; split <;> rfl

theorem Binder.read_invoked {V : Type} (d : Decls V) (c : Nat) (k : Key) (w : World V) :
    (Binder.read d c k w).2.invoked = w.invoked := by
  unfold Binder.read; split <;> rfl

theorem Binder.read_delivered {V : Type} (d : Decls V) (c : Nat) (k : Key) (w : World V) :
    (Binder.read d c k w).2.delivered = w.delivered := by
  unfold Binder.read; split <;> rfl

/-- A read through the binder leaves every value as it is. -/
theorem Binder.read_value {V : Type} (d : Decls V) (c : Nat) (k k1 : Key) (w : World V) :
    ((Binder.read d c k1 w).2.store.cell d k).value = (w.store.cell d k).value := by
  rw [Binder.read_store]
  split
  · rw [Store.cell_get]
  · rw [Store.cell_subscribe, Store.cell_get]
    split <;> rfl

theorem Binder.readAll_value {V : Type} (d : Decls V) (c : Nat) (k : Key) (ks : List Key)
    (w : World V) :
    ((Binder.readAll d c ks w).2.store.cell d k).value = (w.store.cell d k).value := by
  induction ks generalizing w with
  | nil => rfl
  | cons k1 ks ih =>
    show ((Binder.readAll d c ks (Binder.read d c k1 w).2).2.store.cell d k).value = _
    rw [ih, Binder.read_value]

theorem Binder.readAll_tornDown {V : Type} (d : Decls V) (c c1 : Nat) (ks : List Key)
    (w : World V) :
    ((Binder.readAll d c ks w).2.comps c1).tornDown = (w.comps c1).tornDown := by
  induction ks generalizing w with
  | nil => rfl
  | cons k1 ks ih =>
    show ((Binder.readAll d c ks (Binder.read d c k1 w).2).2.comps c1).tornDown = _
    rw [ih, Binder.read_tornDown]

theorem Binder.readAll_renders {V : Type} (d : Decls V) (c c1 : Nat) (ks : List Key)
    (w : World V) :
    ((Binder.readAll d c ks w).2.comps c1).renders = (w.comps c1).renders := by
  induction ks generalizing w with
  | nil => rfl
  | cons k1 ks ih =>
    show ((Binder.readAll d c ks (Binder.read d c k1 w).2).2.comps c1).renders = _
    rw [ih, Binder.read_renders]

theorem Binder.readAll_dirty {V : Type} (d : Decls V) (c c1 : Nat) (ks : List Key)
    (w : World V) :
    ((Binder.readAll d c ks w).2.comps c1).dirty = (w.comps c1).dirty := by
  induction ks generalizing w with
  | nil => rfl
  | cons k1 ks ih =>
    show ((Binder.readAll d c ks (Binder.read d c k1 w).2).2.comps c1).dirty = _
    rw [ih, Binder.read_dirty]

theorem Binder.readAll_requests {V : Type} (d : Decls V) (c : Nat) (ks : List Key)
    (w : World V) : (Binder.readAll d c ks w).2.requests = w.requests := by
  induction ks generalizing w with
  | nil => rfl
  | cons k1 ks ih =>
    show (Binder.readAll d c ks (Binder.read d c k1 w).2).2.requests = _
    rw [ih, Binder.read_requests]

theorem Binder.readAll_delivered {V : Type} (d : Decls V) (c : Nat) (ks : List Key)
    (w : World V) : (Binder.readAll d c ks w).2.delivered = w.delivered := by
  induction ks generalizing w with
  | nil => rfl
  | cons k1 ks ih =>
    show (Binder.readAll d c ks (Binder.read d c k1 w).2).2.delivered = _
    rw [ih, Binder.read_delivered]

theorem Binder.update_value {V : Type} (d : Decls V) (c : Nat) (k : Key) (ks : List Key)
    (w : World V) :
    ((Binder.update d c ks w).2.store.cell d k).value = (w.store.cell d k).value := by
  unfold Binder.update; rw [Binder.readAll_value]; rfl

theorem Binder.update_tornDown {V : Type} (d : Decls V) (c c1 : Nat) (ks : List Key)
    (w : World V) :
    ((Binder.update d c ks w).2.comps c1).tornDown = (w.comps c1).tornDown := by
  unfold Binder.update; rw [Binder.readAll_tornDown]
  by_cases h : c1 = c
  · subst h; simp [World.setComp]
  · simp [World.setComp, Function.update, h]

theorem Binder.teardown_tornDown {V : Type} (c c1 : Nat) (w : World V) :
    ((Binder.teardown c w).comps c1).tornDown = ((w.comps c1).tornDown || decide (c1 = c)) := by
  unfold Binder.teardown
  by_cases h : c1 = c
  · subst h; simp [World.setComp]
  · simp [World.setComp, Function.update, h]

theorem World.step_unsubscribe {V : Type} (d : Decls V) (w : World V) (i : Nat) :
    w.step d (Op.unsubscribe i) =
      match w.extHandles.get? i with
      | none => w
      | some h => { w with store := w.store.unsubscribe h, invoked := w.invoked ++ [h] } :=
  rfl

theorem World.step_write {V : Type} (d : Decls V) (w : World V) (c : Nat) (k : Key) (v : V) :
    w.step d (Op.write c k v) = if (w.comps c).tornDown = true then w else w.set d k v := by
  show (match Binder.write d c k v w with
    | Except.ok w1 => w1
    | Except.error _ => w) = _
  unfold Binder.write
  by_cases ht : (w.comps c).tornDown = true
  · simp [ht]
  · simp [ht]

/-- An operation that does not write `k` leaves the value of `k` as it is. -/
theorem World.step_value {V : Type} (d : Decls V) (k : Key) (w : World V) (op : Op V)
    (h : op.writes k = false) :
    ((w.step d op).store.cell d k).value = (w.store.cell d k).value := by
  cases op with
  | get k1 => show (((w.store.get d k1).2).cell d k).value = _; rw [Store.cell_get]
  | set k1 v =>
    have hk : ¬ k = k1 := fun x => by simp [Op.writes, x] at h
    show ((w.set d k1 v).store.cell d k).value = _
    rw [World.set_store, Store.cell_set, if_neg hk]
  | subscribe k1 n =>
    show (((w.store.subscribe d k1 (Listener.ext n)).2).cell d k).value = _
    rw [Store.cell_subscribe]; split <;> rfl
  | unsubscribe i =>
    rw [World.step_unsubscribe]
    cases w.extHandles.get? i with
    | none => rfl
    | some hd =>
      show ((w.store.unsubscribe hd).cell d k).value = _
      rw [Store.cell_unsubscribe]; split <;> rfl
  | read c k1 => exact Binder.read_value d c k k1 w
  | update c ks => exact Binder.update_value d c k ks w
  | write c k1 v =>
    have hk : ¬ k = k1 := fun x => by simp [Op.writes, x] at h
    rw [World.step_write]
    by_cases ht : (w.comps c).tornDown = true
    · rw [if_pos ht]
    · rw [if_neg ht, World.set_store, Store.cell_set, if_neg hk]
  | teardown c =>
    show (((w.comps c).handles.foldl (fun s h => s.unsubscribe h) w.store).cell d k).value = _
    rw [Store.cell_unsubscribeAll]

theorem World.run_value {V : Type} (d : Decls V) (k : Key) (ops : List (Op V)) (w : World V)
    (h : ∀ op ∈ ops, op.writes k = false) :
    ((World.run d ops w).store.cell d k).value = (w.store.cell d k).value := by
  induction ops generalizing w with
  | nil => rfl
  | cons op ops ih =>
    show ((World.run d ops (w.step d op)).store.cell d k).value = _
    rw [ih _ (fun o ho => h o (List.mem_cons_of_mem _ ho)),
      World.step_value d k w op (h op (List.mem_cons_self _ _))]

/-- A component that has been torn down stays so. -/
theorem World.step_tornDown {V : Type} (d : Decls V) (c : Nat) (w : World V) (op : Op V)
    (h : (w.comps c).tornDown = true) : ((w.step d op).comps c).tornDown = true := by
  cases op with
  | get k1 => exact h
  | set k1 v => show ((w.set d k1 v).comps c).tornDown = true; rw [World.set_tornDown]; exact h
  | subscribe k1 n => exact h
  | unsubscribe i =>
    rw [World.step_unsubscribe]
    cases w.extHandles.get? i with
    | none => exact h
    | some hd => exact h
  | read c1 k1 => show ((Binder.read d c1 k1 w).2.comps c).tornDown = true
                  rw [Binder.read_tornDown]; exact h
  | update c1 ks => show ((Binder.update d c1 ks w).2.comps c).tornDown = true
                    rw [Binder.update_tornDown]; exact h
  | write c1 k1 v =>
    rw [World.step_write]
    by_cases ht : (w.comps c1).tornDown = true
    · rw [if_pos ht]; exact h
    · rw [if_neg ht, World.set_tornDown]; exact h
  | teardown c1 =>
    show ((Binder.teardown c1 w).comps c).tornDown = true
    rw [Binder.teardown_tornDown, h]; rfl

theorem World.run_tornDown {V : Type} (d : Decls V) (c : Nat) (ops : List (Op V))
    (w : World V) (h : (w.comps c).tornDown = true) :
    ((World.run d ops w).comps c).tornDown = true := by
  induction ops generalizing w with
  | nil => exact h
  | cons op ops ih => exact ih (w.step d op) (World.step_tornDown d c w op h)

/-! ## Registrations of a component under the store operations -/

theorem Store.compSids_get {V : Type} (d : Decls V) (c : Nat) (k k1 : Key) (s : Store V) :
    (s.get d k1).2.compSids c k = s.compSids c k := by
  unfold Store.compSids; rw [Store.subsOf_get]

theorem Store.compSids_set {V : Type} (d : Decls V) (c : Nat) (k k1 : Key) (v : V)
    (s : Store V) : (s.set d k1 v).2.compSids c k = s.compSids c k := by
  unfold Store.compSids; rw [Store.subsOf_set]

theorem Store.compSids_subscribe {V : Type} (d : Decls V) (c : Nat) (k k1 : Key)
    (l : Listener) (s : Store V) :
    (s.subscribe d k1 l).2.compSids c k =
      if k = k1 ∧ l = Listener.comp c then s.compSids c k ++ [s.nextSid]
      else s.compSids c k := by
  unfold Store.compSids
  rw [Store.subsOf_subscribe]
  by_cases hk : k = k1
  · by_cases hl : l = Listener.comp c
    · subst hl; simp [hk]
    · have hb : (l == Listener.comp c) = false := beq_eq_false_iff_ne.2 hl
      simp [hk, hl, List.filter_append, List.filter_cons, hb]
  · simp [hk]

theorem Store.compSids_unsubscribeAll {V : Type} (c : Nat) (k : Key) (hs : List Handle)
    (s : Store V) :
    (hs.foldl (fun s h => s.unsubscribe h) s).compSids c k =
      (s.compSids c k).filter (fun i => !hs.any (fun h => h.key == k && h.sid == i)) := by
  unfold Store.compSids
  rw [Store.subsOf_unsubscribeAll, List.filter_filter, List.filter_map, List.filter_filter]
  congr 1
  apply List.filter_congr
  intro sb _
  simp [Bool.and_comm]

theorem Store.compSids_unsubscribe {V : Type} (c : Nat) (k : Key) (h : Handle)
    (s : Store V) :
    (s.unsubscribe h).compSids c k =
      (s.compSids c k).filter (fun i => !(h.key == k && h.sid == i)) := by
  have := Store.compSids_unsubscribeAll c k [h] s
  simpa using this

theorem Store.nextSid_get {V : Type} (d : Decls V) (k : Key) (s : Store V) :
    (s.get d k).2.nextSid = s.nextSid := rfl

theorem Store.nextSid_set {V : Type} (d : Decls V) (k : Key) (v : V) (s : Store V) :
    (s.set d k v).2.nextSid = s.nextSid := rfl

theorem Store.nextSid_subscribe {V : Type} (d : Decls V) (k : Key) (l : Listener)
    (s : Store V) : (s.subscribe d k l).2.nextSid = s.nextSid + 1 := rfl

theorem Comp.mem_sidsFor {m : Comp} {k : Key} {i : Nat} :
    i ∈ m.sidsFor k ↔ ∃ h ∈ m.handles, h.key = k ∧ h.sid = i := by
  unfold Comp.sidsFor
  simp only [List.mem_map, List.mem_filter, beq_iff_eq]
  constructor
  · rintro ⟨h, ⟨h1, h2⟩, h3⟩; exact ⟨h, h1, h2, h3⟩
  · rintro ⟨h, h1, h2, h3⟩; exact ⟨h, ⟨h1, h2⟩, h3⟩

/-! ## The subscriptions and the handles agree in every world the operations produce -/

theorem World.SubsOk.congr {V : Type} {w w1 : World V} (h : w.SubsOk)
    (hs : ∀ c k, w1.store.compSids c k = w.store.compSids c k)
    (hn : w1.store.nextSid = w.store.nextSid)
    (hh : ∀ c, (w1.comps c).handles = (w.comps c).handles)
    (he : w1.extHandles = w.extHandles) (hi : w1.invoked = w.invoked) : w1.SubsOk := by
  have hf : ∀ c k, (w1.comps c).sidsFor k = (w.comps c).sidsFor k := by
    intro c k; unfold Comp.sidsFor; rw [hh]
  constructor
  · intro c k; rw [hs, hf]; exact h.paired c k
  · intro c k; rw [hf]; exact h.single c k
  · intro c x hx; rw [hn]; rw [hh] at hx; exact h.bound c x hx
  · intro x hx; rw [hn]; rw [he] at hx; exact h.extBound x hx
  · intro x hx; rw [hn]; rw [hi] at hx; exact h.invokedBound x hx
  · intro x hx c y hy; rw [he] at hx; rw [hh] at hy; exact h.extApart x hx c y hy
  · intro c c1 x y hne hx hy; rw [hh] at hx hy; exact h.compApart c c1 x y hne hx hy
  · intro c x hx y hy; rw [hh] at hx; rw [hi] at hy; exact h.unused c x hx y hy

theorem World.SubsOk.empty {V : Type} : (World.empty : World V).SubsOk := by
  constructor
  · intro c k; rfl
  · intro c k; exact Nat.zero_le _
  · intro c x hx; cases hx
  · intro x hx; cases hx
  · intro x hx; cases hx
  · intro x hx; cases hx
  · intro c c1 x y _ hx; cases hx
  · intro c x hx; cases hx

theorem Binder.not_subscribed_sidsFor {V : Type} {c : Nat} {k : Key} {w : World V}
    (h : ¬ Binder.subscribed c k w = true) : (w.comps c).sidsFor k = [] := by
  unfold Binder.subscribed at h
  unfold Comp.sidsFor
  rw [List.map_eq_nil_iff, List.filter_eq_nil_iff]
  intro x hx hk
  exact h (List.any_eq_true.2 ⟨x, hx, hk⟩)

theorem World.SubsOk.subscribeExt {V : Type} (d : Decls V) {w : World V} (h : w.SubsOk)
    (k1 : Key) (n : Nat) : (w.step d (Op.subscribe k1 n)).SubsOk := by
  have hlt : ∀ a : Nat, a < w.store.nextSid → a < w.store.nextSid + 1 :=
    fun a ha => Nat.lt_succ_of_lt ha
  constructor
  · intro c k
    show (w.store.subscribe d k1 (Listener.ext n)).2.compSids c k = _
    rw [Store.compSids_subscribe, if_neg (fun x => by cases x.2)]
    exact h.paired c k
  · exact h.single
  · intro c x hx; exact hlt _ (h.bound c x hx)
  · intro x hx
    rcases List.mem_append.1 hx with h1 | h1
    · exact hlt _ (h.extBound x h1)
    · rw [List.mem_singleton.1 h1]; exact Nat.lt_succ_self _
  · intro x hx; exact hlt _ (h.invokedBound x hx)
  · intro x hx c y hy
    rcases List.mem_append.1 hx with h1 | h1
    · exact h.extApart x h1 c y hy
    · rw [List.mem_singleton.1 h1]
      exact Nat.ne_of_lt (h.bound c y hy)
  · exact h.compApart
  · exact h.unused

theorem World.SubsOk.unsubscribeExt {V : Type} (d : Decls V) {w : World V} (h : w.SubsOk)
    (i : Nat) : (w.step d (Op.unsubscribe i)).SubsOk := by
  rw [World.step_unsubscribe]
  cases hg : w.extHandles.get? i with
  | none => exact h
  | some hd =>
    have hmem : hd ∈ w.extHandles := List.get?_mem hg
    constructor
    · intro c k
      show (w.store.unsubscribe hd).compSids c k = _
      rw [Store.compSids_unsubscribe, h.paired c k, List.filter_eq_self]
      intro a ha
      obtain ⟨y, hy, _, hya⟩ := Comp.mem_sidsFor.1 ha
      have hne : hd.sid ≠ a := fun e => h.extApart hd hmem c y hy (hya.trans e.symm)
      simp [hne]
    · exact h.single
    · intro c x hx
      show x.sid < (w.store.unsubscribe hd).nextSid
      rw [Store.nextSid_unsubscribe]; exact h.bound c x hx
    · intro x hx
      show x.sid < (w.store.unsubscribe hd).nextSid
      rw [Store.nextSid_unsubscribe]; exact h.extBound x hx
    · intro x hx
      show x.sid < (w.store.unsubscribe hd).nextSid
      rw [Store.nextSid_unsubscribe]
      rcases List.mem_append.1 hx with h1 | h1
      · exact h.invokedBound x h1
      · rw [List.mem_singleton.1 h1]; exact h.extBound hd hmem
    · exact h.extApart
    · exact h.compApart
    · intro c x hx y hy
      rcases List.mem_append.1 hy with h1 | h1
      · exact h.unused c x hx y h1
      · rw [List.mem_singleton.1 h1]
        exact fun e => h.extApart hd hmem c x hx e.symm

theorem Binder.read_compSids {V : Type} (d : Decls V) (c c0 : Nat) (k k0 : Key)
    (w : World V) :
    (Binder.read d c k w).2.store.compSids c0 k0 =
      if Binder.subscribed c k w = true ∨ ¬ (k0 = k ∧ c0 = c) then w.store.compSids c0 k0
      else w.store.compSids c0 k0 ++ [w.store.nextSid] := by
  rw [Binder.read_store]
  by_cases hs : Binder.subscribed c k w = true
  · rw [if_pos hs, if_pos (Or.inl hs), Store.compSids_get]
  · rw [if_neg hs, Store.compSids_subscribe, Store.compSids_get, Store.nextSid_get]
    by_cases hk : k0 = k ∧ c0 = c
    · rw [if_pos ⟨hk.1, by rw [hk.2]⟩, if_neg (fun x => x.elim hs (fun y => y hk))]
    · rw [if_neg (fun x => hk ⟨x.1, by cases x.2; rfl⟩), if_pos (Or.inr hk)]

theorem Binder.read_nextSid {V : Type} (d : Decls V) (c : Nat) (k : Key) (w : World V) :
    (Binder.read d c k w).2.store.nextSid =
      if Binder.subscribed c k w = true then w.store.nextSid else w.store.nextSid + 1 := by
  rw [Binder.read_store]
  by_cases hs : Binder.subscribed c k w = true
  · rw [if_pos hs, if_pos hs]; rfl
  · rw [if_neg hs, if_neg hs]; rfl

theorem World.SubsOk.read {V : Type} (d : Decls V) {w : World V} (h : w.SubsOk)
    (c : Nat) (k : Key) : (Binder.read d c k w).2.SubsOk := by
  by_cases hs : Binder.subscribed c k w = true
  · apply h.congr
    · intro c0 k0; rw [Binder.read_compSids, if_pos (Or.inl hs)]
    · rw [Binder.read_nextSid, if_pos hs]
    · intro c0; rw [Binder.read_handles, if_pos (Or.inl hs)]
    · exact Binder.read_extHandles d c k w
    · exact Binder.read_invoked d c k w
  · have hhc : ((Binder.read d c k w).2.comps c).handles =
        (w.comps c).handles ++ [⟨k, w.store.nextSid⟩] := by
      rw [Binder.read_handles, if_neg (fun x => x.elim hs (fun y => y rfl))]
    have hho : ∀ c0, c0 ≠ c →
        ((Binder.read d c k w).2.comps c0).handles = (w.comps c0).handles := by
      intro c0 h0; rw [Binder.read_handles, if_pos (Or.inr h0)]
    have hn : (Binder.read d c k w).2.store.nextSid = w.store.nextSid + 1 := by
      rw [Binder.read_nextSid, if_neg hs]
    have hmem : ∀ c0 x, x ∈ ((Binder.read d c k w).2.comps c0).handles →
        x ∈ (w.comps c0).handles ∨ (c0 = c ∧ x = ⟨k, w.store.nextSid⟩) := by
      intro c0 x hx
      by_cases h0 : c0 = c
      · subst h0
        rw [hhc] at hx
        rcases List.mem_append.1 hx with h1 | h1
        · exact Or.inl h1
        · exact Or.inr ⟨rfl, List.mem_singleton.1 h1⟩
      · rw [hho c0 h0] at hx; exact Or.inl hx
    have hsf : ∀ c0 k0, ((Binder.read d c k w).2.comps c0).sidsFor k0 =
        if k0 = k ∧ c0 = c then (w.comps c0).sidsFor k0 ++ [w.store.nextSid]
        else (w.comps c0).sidsFor k0 := by
      intro c0 k0
      unfold Comp.sidsFor
      by_cases h0 : c0 = c
      · subst h0
        rw [hhc]
        by_cases hk : k0 = k
        · subst hk; simp [List.filter_append, List.filter_cons]
        · have hb : (k == k0) = false := beq_eq_false_iff_ne.2 (fun x => hk x.symm)
          simp [List.filter_append, List.filter_cons, hb, hk]
      · rw [hho c0 h0, if_neg (fun x => h0 x.2)]
    constructor
    · intro c0 k0
      rw [Binder.read_compSids, hsf]
      by_cases hk : k0 = k ∧ c0 = c
      · rw [if_neg (fun x => x.elim hs (fun y => y hk)), if_pos hk, h.paired c0 k0]
      · rw [if_pos (Or.inr hk), if_neg hk, h.paired c0 k0]
    · intro c0 k0
      rw [hsf]
      by_cases hk : k0 = k ∧ c0 = c
      · rw [if_pos hk, hk.1, hk.2, Binder.not_subscribed_sidsFor hs]; exact Nat.le_refl 1
      · rw [if_neg hk]; exact h.single c0 k0
    · intro c0 x hx
      rw [hn]
      rcases hmem c0 x hx with h1 | h1
      · exact Nat.lt_succ_of_lt (h.bound c0 x h1)
      · rw [h1.2]; exact Nat.lt_succ_self _
    · intro x hx
      rw [hn]; rw [Binder.read_extHandles] at hx
      exact Nat.lt_succ_of_lt (h.extBound x hx)
    · intro x hx
      rw [hn]; rw [Binder.read_invoked] at hx
      exact Nat.lt_succ_of_lt (h.invokedBound x hx)
    · intro x hx c0 y hy
      rw [Binder.read_extHandles] at hx
      rcases hmem c0 y hy with h1 | h1
      · exact h.extApart x hx c0 y h1
      · rw [h1.2]; exact Nat.ne_of_gt (h.extBound x hx)
    · intro c0 c1 x y hne hx hy
      rcases hmem c0 x hx with h1 | h1
      · rcases hmem c1 y hy with h2 | h2
        · exact h.compApart c0 c1 x y hne h1 h2
        · rw [h2.2]; exact Nat.ne_of_lt (h.bound c0 x h1)
      · rcases hmem c1 y hy with h2 | h2
        · rw [h1.2]; exact Nat.ne_of_gt (h.bound c1 y h2)
        · exact absurd (h1.1.trans h2.1.symm) hne
    · intro c0 x hx y hy
      rw [Binder.read_invoked] at hy
      rcases hmem c0 x hx with h1 | h1
      · exact h.unused c0 x h1 y hy
      · rw [h1.2]; exact Nat.ne_of_lt (h.invokedBound y hy)

theorem World.SubsOk.readAll {V : Type} (d : Decls V) (c : Nat) (ks : List Key)
    {w : World V} (h : w.SubsOk) : (Binder.readAll d c ks w).2.SubsOk := by
  induction ks generalizing w with
  | nil => exact h
  | cons k ks ih => exact ih (h.read d c k)

theorem World.SubsOk.update {V : Type} (d : Decls V) (c : Nat) (ks : List Key)
    {w : World V} (h : w.SubsOk) : (Binder.update d c ks w).2.SubsOk := by
  unfold Binder.update
  apply World.SubsOk.readAll
  apply h.congr
  · intro c0 k0; rfl
  · rfl
  · intro c0
    by_cases h0 : c0 = c
    · subst h0; simp [World.setComp]
    · simp [World.setComp, Function.update, h0]
  · rfl
  · rfl

theorem World.SubsOk.set {V : Type} (d : Decls V) (k : Key) (v : V) {w : World V}
    (h : w.SubsOk) : (w.set d k v).SubsOk := by
  apply h.congr
  · intro c0 k0; rw [World.set_store, Store.compSids_set]
  · rw [World.set_store]; rfl
  · intro c0; exact World.set_handles d k v w c0
  · unfold World.set; rw [World.deliverAll_extHandles]
  · unfold World.set; rw [World.deliverAll_invoked]

theorem Binder.teardown_handles {V : Type} (c c0 : Nat) (w : World V) :
    ((Binder.teardown c w).comps c0).handles =
      if c0 = c then [] else (w.comps c0).handles := by
  unfold Binder.teardown
  by_cases h : c0 = c
  · subst h; simp [World.setComp]
  · simp [World.setComp, Function.update, h]

theorem World.SubsOk.teardown {V : Type} {w : World V} (h : w.SubsOk) (c : Nat) :
    (Binder.teardown c w).SubsOk := by
  have hsub : ∀ c0 x, x ∈ ((Binder.teardown c w).comps c0).handles →
      x ∈ (w.comps c0).handles ∧ c0 ≠ c := by
    intro c0 x hx
    rw [Binder.teardown_handles] at hx
    by_cases h0 : c0 = c
    · rw [if_pos h0] at hx; cases hx
    · rw [if_neg h0] at hx; exact ⟨hx, h0⟩
  have hn : (Binder.teardown c w).store.nextSid = w.store.nextSid :=
    Store.nextSid_unsubscribeAll _ _
  have hinv : ∀ y, y ∈ (Binder.teardown c w).invoked →
      y ∈ w.invoked ∨ y ∈ (w.comps c).handles := fun y hy => List.mem_append.1 hy
  constructor
  · intro c0 k
    show ((w.comps c).handles.foldl (fun s h => s.unsubscribe h) w.store).compSids c0 k = _
    rw [Store.compSids_unsubscribeAll, h.paired c0 k]
    by_cases h0 : c0 = c
    · subst h0
      have e : ((Binder.teardown c0 w).comps c0).sidsFor k = [] := by
        unfold Comp.sidsFor; rw [Binder.teardown_handles, if_pos rfl]; rfl
      rw [e, List.filter_eq_nil_iff]
      intro a ha
      obtain ⟨y, hy, hyk, hya⟩ := Comp.mem_sidsFor.1 ha
      have : (w.comps c0).handles.any (fun h => h.key == k && h.sid == a) = true :=
        List.any_eq_true.2 ⟨y, hy, by simp [hyk, hya]⟩
      simp [this]
    · have e : ((Binder.teardown c w).comps c0).sidsFor k = (w.comps c0).sidsFor k := by
        unfold Comp.sidsFor; rw [Binder.teardown_handles, if_neg h0]
      rw [e, List.filter_eq_self]
      intro a ha
      obtain ⟨y, hy, _, hya⟩ := Comp.mem_sidsFor.1 ha
      have : (w.comps c).handles.any (fun h => h.key == k && h.sid == a) = false := by
        rw [List.any_eq_false]
        intro x hx hb
        simp only [Bool.and_eq_true, beq_iff_eq] at hb
        exact h.compApart c c0 x y (fun e => h0 e.symm) hx hy (hb.2.trans hya.symm)
      simp [this]
  · intro c0 k
    by_cases h0 : c0 = c
    · subst h0
      unfold Comp.sidsFor; rw [Binder.teardown_handles, if_pos rfl]; exact Nat.zero_le _
    · unfold Comp.sidsFor; rw [Binder.teardown_handles, if_neg h0]; exact h.single c0 k
  · intro c0 x hx; rw [hn]; exact h.bound c0 x (hsub c0 x hx).1
  · intro x hx; rw [hn]; exact h.extBound x hx
  · intro x hx
    rw [hn]
    rcases hinv x hx with h1 | h1
    · exact h.invokedBound x h1
    · exact h.bound c x h1
  · intro x hx c0 y hy; exact h.extApart x hx c0 y (hsub c0 y hy).1
  · intro c0 c1 x y hne hx hy
    exact h.compApart c0 c1 x y hne (hsub c0 x hx).1 (hsub c1 y hy).1
  · intro c0 x hx y hy
    rcases hinv y hy with h1 | h1
    · exact h.unused c0 x (hsub c0 x hx).1 y h1
    · exact h.compApart c c0 y x (fun e => (hsub c0 x hx).2 e.symm) h1 (hsub c0 x hx).1

theorem World.SubsOk.step {V : Type} (d : Decls V) {w : World V} (h : w.SubsOk)
    (op : Op V) : (w.step d op).SubsOk := by
  cases op with
  | get k =>
    apply h.congr
    · intro c0 k0; exact Store.compSids_get d c0 k0 k w.store
    · rfl
    · intro c0; rfl
    · rfl
    · rfl
  | set k v => exact h.set d k v
  | subscribe k n => exact h.subscribeExt d k n
  | unsubscribe i => exact h.unsubscribeExt d i
  | read c k => exact h.read d c k
  | update c ks => exact h.update d c ks
  | write c k v =>
    rw [World.step_write]
    split
    · exact h
    · exact h.set d k v
  | teardown c => exact h.teardown c

theorem World.SubsOk.run {V : Type} (d : Decls V) (ops : List (Op V)) {w : World V}
    (h : w.SubsOk) : (World.run d ops w).SubsOk := by
  induction ops generalizing w with
  | nil => exact h
  | cons op ops ih => exact ih (h.step d op)

/-! ## The dirty marks and the pending requests agree in every world -/

theorem World.ReqsOk.reqs_congr {V : Type} {w w1 : World V} (h : w.ReqsOk)
    (hd : ∀ c, (w1.comps c).dirty = (w.comps c).dirty) (hr : w1.requests = w.requests) :
    w1.ReqsOk := by
  constructor
  · intro c; rw [hd, hr]; exact h.pending c
  · rw [hr]; exact h.once

theorem World.ReqsOk.reqs_empty {V : Type} : (World.empty : World V).ReqsOk := by
  constructor
  · intro c
    constructor
    · intro h; cases h
    · intro h; cases h
  · exact List.nodup_nil

theorem World.ReqsOk.reqs_set {V : Type} (d : Decls V) (k : Key) (v : V) {w : World V}
    (h : w.ReqsOk) : (w.set d k v).ReqsOk := by
  have := World.deliverAll_requests (w.store.set d k v).1
    { w with store := (w.store.set d k v).2 } h.pending h.once
  exact ⟨this.1, this.2⟩

theorem Binder.update_dirty {V : Type} (d : Decls V) (c c0 : Nat) (ks : List Key)
    (w : World V) :
    ((Binder.update d c ks w).2.comps c0).dirty =
      if c0 = c then false else (w.comps c0).dirty := by
  unfold Binder.update
  rw [Binder.readAll_dirty]
  by_cases h : c0 = c
  · subst h; simp [World.setComp]
  · simp [World.setComp, Function.update, h]

theorem Binder.update_requests {V : Type} (d : Decls V) (c : Nat) (ks : List Key)
    (w : World V) :
    (Binder.update d c ks w).2.requests = w.requests.filter (fun r => r != c) := by
  unfold Binder.update
  rw [Binder.readAll_requests]

theorem Binder.update_renders {V : Type} (d : Decls V) (c c0 : Nat) (ks : List Key)
    (w : World V) :
    ((Binder.update d c ks w).2.comps c0).renders =
      if c0 = c then (w.comps c0).renders + 1 else (w.comps c0).renders := by
  unfold Binder.update
  rw [Binder.readAll_renders]
  by_cases h : c0 = c
  · subst h; simp [World.setComp]
  · simp [World.setComp, Function.update, h]

theorem World.ReqsOk.reqs_update {V : Type} (d : Decls V) (c : Nat) (ks : List Key)
    {w : World V} (h : w.ReqsOk) : (Binder.update d c ks w).2.ReqsOk := by
  constructor
  · intro c0
    rw [Binder.update_dirty, Binder.update_requests, List.mem_filter]
    by_cases h0 : c0 = c
    · subst h0; simp
    · rw [if_neg h0, h.pending c0]
      simp [h0]
  · rw [Binder.update_requests]
    exact h.once.filter _

theorem Binder.teardown_dirty {V : Type} (c c0 : Nat) (w : World V) :
    ((Binder.teardown c w).comps c0).dirty = (w.comps c0).dirty := by
  unfold Binder.teardown
  by_cases h : c0 = c
  · subst h; simp [World.setComp]
  · simp [World.setComp, Function.update, h]

theorem Binder.teardown_renders {V : Type} (c c0 : Nat) (w : World V) :
    ((Binder.teardown c w).comps c0).renders = (w.comps c0).renders := by
  unfold Binder.teardown
  by_cases h : c0 = c
  · subst h; simp [World.setComp]
  · simp [World.setComp, Function.update, h]

theorem World.ReqsOk.reqs_step {V : Type} (d : Decls V) {w : World V} (h : w.ReqsOk)
    (op : Op V) : (w.step d op).ReqsOk := by
  cases op with
  | get k => exact h.reqs_congr (fun _ => rfl) rfl
  | set k v => exact h.reqs_set d k v
  | subscribe k n => exact h.reqs_congr (fun _ => rfl) rfl
  | unsubscribe i =>
    rw [World.step_unsubscribe]
    cases w.extHandles.get? i with
    | none => exact h
    | some hd => exact h.reqs_congr (fun _ => rfl) rfl
  | read c k =>
    exact h.reqs_congr (fun c0 => Binder.read_dirty d c c0 k w) (Binder.read_requests d c k w)
  | update c ks => exact h.reqs_update d c ks
  | write c k v =>
    rw [World.step_write]
    split
    · exact h
    · exact h.reqs_set d k v
  | teardown c => exact h.reqs_congr (fun c0 => Binder.teardown_dirty c c0 w) rfl

theorem World.ReqsOk.reqs_run {V : Type} (d : Decls V) (ops : List (Op V)) {w : World V}
    (h : w.ReqsOk) : (World.run d ops w).ReqsOk := by
  induction ops generalizing w with
  | nil => exact h
  | cons op ops ih => exact ih (h.reqs_step d op)

/-! ## Consequences of the invariants -/

theorem Binder.subscribed_iff {V : Type} (c : Nat) (k : Key) (w : World V) :
    Binder.subscribed c k w = true ↔ ∃ h ∈ (w.comps c).handles, h.key = k := by
  unfold Binder.subscribed
  rw [List.any_eq_true]
  constructor
  · rintro ⟨h, h1, h2⟩; exact ⟨h, h1, beq_iff_eq.1 h2⟩
  · rintro ⟨h, h1, h2⟩; exact ⟨h, h1, beq_iff_eq.2 h2⟩

theorem Binder.read_subscribed {V : Type} (d : Decls V) (c : Nat) (k : Key) (w : World V) :
    Binder.subscribed c k (Binder.read d c k w).2 = true := by
  rw [Binder.subscribed_iff, Binder.read_handles]
  by_cases hs : Binder.subscribed c k w = true
  · rw [if_pos (Or.inl hs)]; exact (Binder.subscribed_iff c k w).1 hs
  · rw [if_neg (fun x => x.elim hs (fun y => y rfl))]
    exact ⟨⟨k, w.store.nextSid⟩, List.mem_append_right _ (List.mem_singleton.2 rfl), rfl⟩

theorem Binder.read_subscribed_mono {V : Type} (d : Decls V) (c : Nat) (k k0 : Key)
    (w : World V) (h : Binder.subscribed c k0 w = true) :
    Binder.subscribed c k0 (Binder.read d c k w).2 = true := by
  rw [Binder.subscribed_iff] at h ⊢
  obtain ⟨x, hx, hk⟩ := h
  refine ⟨x, ?_, hk⟩
  rw [Binder.read_handles]
  split
  · exact hx
  · exact List.mem_append_left _ hx

theorem Binder.readAll_subscribed_mono {V : Type} (d : Decls V) (c : Nat) (k0 : Key)
    (ks : List Key) (w : World V) (h : Binder.subscribed c k0 w = true) :
    Binder.subscribed c k0 (Binder.readAll d c ks w).2 = true := by
  induction ks generalizing w with
  | nil => exact h
  | cons k ks ih => exact ih _ (Binder.read_subscribed_mono d c k k0 w h)

theorem Binder.readAll_subscribed {V : Type} (d : Decls V) (c : Nat) (k : Key)
    (ks : List Key) (w : World V) (h : k ∈ ks) :
    Binder.subscribed c k (Binder.readAll d c ks w).2 = true := by
  induction ks generalizing w with
  | nil => cases h
  | cons k1 ks ih =>
    show Binder.subscribed c k (Binder.readAll d c ks (Binder.read d c k1 w).2).2 = true
    rcases List.mem_cons.1 h with h1 | h1
    · subst h1
      exact Binder.readAll_subscribed_mono d c k ks _ (Binder.read_subscribed d c k w)
    · exact ih _ h1

theorem Binder.update_subscribed {V : Type} (d : Decls V) (c : Nat) (k : Key)
    (ks : List Key) (w : World V) (h : k ∈ ks) :
    Binder.subscribed c k (Binder.update d c ks w).2 = true := by
  unfold Binder.update
  exact Binder.readAll_subscribed d c k ks _ h

/-- A subscribed component holds exactly one handle for the atom and has exactly one
registration with it. -/
theorem World.SubsOk.one_subscription {V : Type} {w : World V} (h : w.SubsOk) (c : Nat)
    (k : Key) (hs : Binder.subscribed c k w = true) :
    ((w.comps c).handles.filter (fun x => x.key == k)).length = 1 ∧
    ((w.store.subsOf k).filter (fun sb => sb.listener == Listener.comp c)).length = 1 := by
  have h1 : ((w.comps c).handles.filter (fun x => x.key == k)).length = 1 := by
    have hle := h.single c k
    unfold Comp.sidsFor at hle
    rw [List.length_map] at hle
    obtain ⟨x, hx, hk⟩ := (Binder.subscribed_iff c k w).1 hs
    have hpos : 0 < ((w.comps c).handles.filter (fun x => x.key == k)).length :=
      List.length_pos_of_mem (List.mem_filter.2 ⟨hx, beq_iff_eq.2 hk⟩)
    omega
  refine ⟨h1, ?_⟩
  have hp := congrArg List.length (h.paired c k)
  unfold Store.compSids Comp.sidsFor at hp
  rw [List.length_map, List.length_map] at hp
  rw [hp, h1]

theorem World.ReqsOk.count_dirty {V : Type} {w : World V} (h : w.ReqsOk) (c : Nat)
    (hd : (w.comps c).dirty = true) : w.requests.count c = 1 :=
  List.count_eq_one_of_mem h.once ((h.pending c).1 hd)

theorem World.ReqsOk.count_clean {V : Type} {w : World V} (h : w.ReqsOk) (c : Nat)
    (hd : (w.comps c).dirty = false) : w.requests.count c = 0 := by
  apply List.count_eq_zero_of_not_mem
  intro hm
  rw [(h.pending c).2 hm] at hd
  cases hd

theorem World.set_dirty {V : Type} (d : Decls V) (k : Key) (v : V) (w : World V) (c : Nat) :
    ((w.set d k v).comps c).dirty =
      ((w.comps c).dirty ||
        (w.store.set d k v).1.any (fun n => decide (n.sub.listener = Listener.comp c))) := by
  unfold World.set; rw [World.deliverAll_dirty]

/-- A changing write marks every subscribed component dirty. -/
theorem World.SubsOk.set_marks {V : Type} (d : Decls V) {w : World V} (h : w.SubsOk)
    (c : Nat) (k : Key) (v : V) (hs : Binder.subscribed c k w = true)
    (hv : (d k).same (w.store.cell d k).value v = false) :
    ((w.set d k v).comps c).dirty = true := by
  have h1 := (h.one_subscription c k hs).2
  have hne : (w.store.subsOf k).filter (fun sb => sb.listener == Listener.comp c) ≠ [] := by
    intro e; rw [e] at h1; cases h1
  obtain ⟨sb, hsb⟩ := List.exists_mem_of_ne_nil _ hne
  have hsb1 := List.mem_filter.1 hsb
  rw [World.set_dirty]
  have : (w.store.set d k v).1.any (fun n => decide (n.sub.listener = Listener.comp c))
      = true := by
    rw [List.any_eq_true]
    refine ⟨⟨sb, k, v⟩, ?_, ?_⟩
    · rw [Store.subsOf_eq_cell d] at hsb1
      simp only [Store.set, hv]
      exact List.mem_map.2 ⟨sb, hsb1.1, rfl⟩
    · exact decide_eq_true (beq_iff_eq.1 hsb1.2)
  rw [this, Bool.or_true]

theorem World.set_dirty_mono {V : Type} (d : Decls V) (k : Key) (v : V) (w : World V)
    (c : Nat) (h : (w.comps c).dirty = true) : ((w.set d k v).comps c).dirty = true := by
  rw [World.set_dirty, h, Bool.true_or]

/-- A changing write delivers exactly one notification to a subscribed component. -/
theorem World.SubsOk.set_notifies_once {V : Type} (d : Decls V) {w : World V}
    (h : w.SubsOk) (c : Nat) (k : Key) (v : V) (hs : Binder.subscribed c k w = true)
    (hv : (d k).same (w.store.cell d k).value v = false) :
    ((w.store.set d k v).1.filter (fun n => n.sub.listener == Listener.comp c)).length
      = 1 := by
  have e : (w.store.set d k v).1 = (w.store.subsOf k).map (fun sb => ⟨sb, k, v⟩) := by
    rw [Store.subsOf_eq_cell d]
    simp [Store.set, hv]
  rw [e, List.filter_map, List.length_map]
  exact (h.one_subscription c k hs).2

theorem World.set_subscribed {V : Type} (d : Decls V) (k k0 : Key) (v : V) (w : World V)
    (c : Nat) : Binder.subscribed c k0 (w.set d k v) = Binder.subscribed c k0 w := by
  unfold Binder.subscribed; rw [World.set_handles]

/-! ## The root component -/

/-- C1: for every instance and every world, `render` gives a template with no
interpolated value whose markup is exactly the three empty child elements `todo-debug`,
`todo-list`, `todo-detail` in that order with only white space around them, and any two
calls of `render` give the same template. -/
theorem TodoApp.render_three_children {V : Type} (self : Nat) (w : World V) :
    (TodoApp.render self w).1.values = [] ∧
    (TodoApp.render self w).1.strings.length = 1 ∧
    (parseTemplate (TodoApp.render self w).1).map elementTags =
      some ["todo-debug", "todo-list", "todo-detail"] ∧
    (parseTemplate (TodoApp.render self w).1).map
      (fun ns => (elementChildren ns).map List.length) = some [0, 0, 0] ∧
    (parseTemplate (TodoApp.render self w).1).map (fun ns => (textRuns ns).all isBlank) =
      some true ∧
    ∀ (V1 : Type) (self1 : Nat) (w1 : World V1),
      (TodoApp.render self1 w1).1 = (TodoApp.render self w).1 := by
  refine ⟨rfl, rfl, ?_, ?_, ?_, fun _ _ _ => rfl⟩
  · simp only [TodoApp.render]; decide
  · simp only [TodoApp.render]; decide
  · simp only [TodoApp.render]; decide

/-- C2: the class body of `TodoApp` defines only `render`, `render` reads no atom and gives
the world back as it was: every atom keeps its value and its subscriber list, the root
holds the handles it held, and the update of the root run by the host through the binder
leaves the store and the handles of the root unchanged too. -/
theorem TodoApp.render_uses_no_atom {V : Type} (d : Decls V) (LitElement : ClassObj)
    (r : Realm) (self : Nat) (w : World V) :
    (TodoApp.declare LitElement r).1.methods = ["render"] ∧
    TodoApp.reads = [] ∧
    (TodoApp.render self w).2 = w ∧
    (∀ k, (TodoApp.render self w).2.store.atoms k = w.store.atoms k) ∧
    (∀ k, (TodoApp.render self w).2.store.subsOf k = w.store.subsOf k) ∧
    ((TodoApp.render self w).2.comps self).handles = (w.comps self).handles ∧
    (Binder.update d self TodoApp.reads w).2.store = w.store ∧
    ((Binder.update d self TodoApp.reads w).2.comps self).handles = (w.comps self).handles ∧
    (Binder.update d self TodoApp.reads w).2.delivered = w.delivered := by
  refine ⟨rfl, rfl, rfl, fun _ => rfl, fun _ => rfl, rfl, rfl, ?_, rfl⟩
  simp [Binder.update, TodoApp.reads, Binder.readAll, World.setComp]

/-- C3: from any realm in which `todo-app` is not defined, loading the module succeeds and
the registry after it is the registry before it with the one definition of `todo-app`
as the class `TodoApp` added; that class extends the class `LitAtom(LitElement)`, so the
mixin is on its prototype chain. -/
theorem load_registers_todo_app (LitElement : ClassObj) (r : Realm)
    (h : r.lookup "todo-app" = none) :
    ∃ r1, load LitElement r = Except.ok r1 ∧
      r1.registry = r.registry ++ [("todo-app", (TodoApp.declare LitElement r).1)] ∧
      r1.lookup "todo-app" = some (TodoApp.declare LitElement r).1 ∧
      (r1.registry.filter (fun e => e.1 == "todo-app")).length = 1 ∧
      (r1.registry.filter (fun e => e.2.uid == (TodoApp.declare LitElement r).1.uid)).length
        = 1 ∧
      (∀ name, name ≠ "todo-app" → r1.lookup name = r.lookup name) ∧
      (TodoApp.declare LitElement r).1.name = "TodoApp" ∧
      (TodoApp.declare LitElement r).1.parent = some (LitAtom LitElement r).1 ∧
      (LitAtom LitElement r).1.parent = some LitElement ∧
      (TodoApp.declare LitElement r).1.chain =
        (TodoApp.declare LitElement r).1 :: (LitAtom LitElement r).1 :: LitElement.chain := by
  have hname : ∀ e ∈ r.registry, (e.1 == "todo-app") = false := by
    intro e he
    cases hb : (e.1 == "todo-app") with
    | false => rfl
    | true =>
      exfalso
      have hf : (r.registry.find? (fun e => e.1 == "todo-app")).isSome = true :=
        List.find?_isSome.2 ⟨e, he, hb⟩
      simp only [Realm.lookup] at h
      cases hq : r.registry.find? (fun e => e.1 == "todo-app") with
      | none => rw [hq] at hf; exact absurd hf (by decide)
      | some x => rw [hq] at h; exact absurd h (by simp)
  have huid : ∀ e ∈ r.registry, (e.2.uid == (TodoApp.declare LitElement r).1.uid) = false := by
    intro e he
    have h1 := r.closed e he
    have h2 : (TodoApp.declare LitElement r).1.uid = r.nextUid + 1 := rfl
    rw [h2, beq_eq_false_iff_ne]
    omega
  have hany1 : r.registry.any (fun e => e.1 == "todo-app") = false := by
    rw [List.any_eq_false]; intro e he; simp [hname e he]
  have hany2 : r.registry.any (fun e => e.2.uid == (TodoApp.declare LitElement r).1.uid)
      = false := by
    rw [List.any_eq_false]; intro e he; simp [huid e he]
  have hvalid : validName "todo-app" = true := by decide
  have hf1 : r.registry.filter (fun e => e.1 == "todo-app") = [] :=
    List.filter_eq_nil_iff.2 (fun e he => by simp [hname e he])
  have hf2 : r.registry.filter (fun e => e.2.uid == (TodoApp.declare LitElement r).1.uid)
      = [] :=
    List.filter_eq_nil_iff.2 (fun e he => by simp [huid e he])
  have hfind : r.registry.find? (fun e => e.1 == "todo-app") = none :=
    List.find?_eq_none.2 (fun e he => by simp [hname e he])
  have hload : ∃ r1, load LitElement r = Except.ok r1 ∧
      r1.registry = r.registry ++ [("todo-app", (TodoApp.declare LitElement r).1)] := by
    unfold load customElements.define
    have hreg0 : (TodoApp.declare LitElement r).2.registry = r.registry := rfl
    rw [if_neg (by rw [hvalid]; decide), if_neg (by rw [hreg0, hany1]; decide),
      if_neg (by rw [hreg0, hany2]; decide)]
    exact ⟨_, rfl, rfl⟩
  obtain ⟨r1, hr1, hreg⟩ := hload
  refine ⟨r1, hr1, hreg, ?_, ?_, ?_, ?_, rfl, rfl, rfl, rfl⟩
  · simp only [Realm.lookup, hreg, List.find?_append, hfind]
    rfl
  · rw [hreg, List.filter_append, hf1]; rfl
  · rw [hreg, List.filter_append, hf2]; simp
  · intro name hne
    simp only [Realm.lookup, hreg, List.find?_append]
    cases hq : r.registry.find? (fun e => e.1 == name) with
    | some x => rfl
    | none =>
      have : ("todo-app" == name) = false := by
        rw [beq_eq_false_iff_ne]; exact fun h1 => hne h1.symm
      simp [List.find?, this]

/-- C3, at a realm: the demo realm with the three child elements defined. -/
theorem load_registers_todo_app_witness :
    demoRealm.lookup "todo-app" = none ∧
    ∃ r1, load (ClassObj.root 0 "LitElement" []) demoRealm = Except.ok r1 ∧
      r1.registry = demoRealm.registry ++
        [("todo-app", (TodoApp.declare (ClassObj.root 0 "LitElement" []) demoRealm).1)] :=
  ⟨by decide,
   (load_registers_todo_app (ClassObj.root 0 "LitElement" []) demoRealm (by decide)).imp
     (fun _ hr => ⟨hr.1, hr.2.1⟩)⟩

/-- C10: the tags of the child elements `render` outputs are, in order, the file names of
the modules the file moduleImports for their side effect, `./todo-debug.js`, `./todo-list.js`
and `./todo-detail.js`, and each of these moduleImports stands before the call that registers
the root. -/
theorem TodoApp.children_are_side_effect_imports {V : Type} (self : Nat) (w : World V) :
    sideEffectImports = ["./todo-debug.js", "./todo-list.js", "./todo-detail.js"] ∧
    (parseTemplate (TodoApp.render self w).1).map elementTags =
      some (sideEffectImports.map moduleStem) ∧
    (∀ src ∈ sideEffectImports,
      moduleItems.indexOf (Item.importDecl [] src) <
        moduleItems.indexOf (Item.defineCall "todo-app" "TodoApp")) ∧
    moduleItems.indexOf (Item.defineCall "todo-app" "TodoApp") < moduleItems.length := by
  refine ⟨by decide, ?_, by decide, by decide⟩
  simp only [TodoApp.render]; decide

/-! ## The store: reads, writes and notifications -/

/-- C4: from the empty store `get "count"` with default 0 gives 0 and creates the atom,
`set "count" 1` notifies nobody and leaves the value 1, and the next `get` gives 1. For
every key and value: `get` on an absent key gives the declared default and creates the
atom with it, a `set` on a key without subscribers notifies nobody, and a `get` after a
`set` of `v`, with any operations that do not write the key in between, gives `v`. -/
theorem Store.read_after_write {V : Type} (d : Decls V) (k : Key) (v : V) :
    ((Store.get intDecls "count" Store.empty).1 = 0 ∧
     ((Store.get intDecls "count" Store.empty).2.atoms "count").map
        (fun a => (a.value, a.subs)) = some (0, []) ∧
     (Store.set intDecls "count" 1 (Store.get intDecls "count" Store.empty).2).1 = [] ∧
     (((Store.set intDecls "count" 1 (Store.get intDecls "count" Store.empty).2).2.atoms
        "count").map (fun a => (a.value, a.subs))) = some (1, []) ∧
     (Store.get intDecls "count"
        (Store.set intDecls "count" 1 (Store.get intDecls "count" Store.empty).2).2).1 = 1) ∧
    (∀ s : Store V, s.atoms k = none →
      (s.get d k).1 = (d k).dflt ∧ (s.get d k).2.atoms k = some ⟨(d k).dflt, []⟩) ∧
    (∀ s : Store V, s.subsOf k = [] → (s.set d k v).1 = []) ∧
    (∀ s : Store V, ((s.set d k v).2.get d k).1 = v) ∧
    (∀ (w : World V) (ops : List (Op V)), (∀ op ∈ ops, op.writes k = false) →
      ((World.run d ops (w.set d k v)).store.get d k).1 = v) := by
  refine ⟨by decide, ?_, ?_, ?_, ?_⟩
  · intro s hs
    simp [Store.get, Store.cell, hs]
  · intro s hs
    rw [Store.subsOf_eq_cell d] at hs
    simp [Store.set, hs]
  · intro s
    show ((s.set d k v).2.cell d k).value = v
    rw [Store.cell_set, if_pos rfl]
  · intro w ops h
    show ((World.run d ops (w.set d k v)).store.cell d k).value = v
    rw [World.run_value d k ops _ h, World.set_store, Store.cell_set, if_pos rfl]

/-- C4, at a run: a read, a subscription, a write to another atom and a render between
the write of 7 and the read. -/
theorem Store.read_after_write_witness :
    ((World.run intDecls
        [Op.get "other", Op.subscribe "count" 0, Op.set "other" 5, Op.update 1 ["count"]]
        (World.set intDecls "count" 7 World.empty)).store.get intDecls "count").1 = 7 :=
  (Store.read_after_write intDecls "count" 7).2.2.2.2 World.empty
    [Op.get "other", Op.subscribe "count" 0, Op.set "other" 5, Op.update 1 ["count"]]
    (by decide)

/-! ## The binder: writes -/

/-- C8: a write through the binder on a component that has been torn down is rejected
with a message that names the fault and the key, whatever happened since the teardown,
and changes nothing; a write on a live component is the store's `set`, and no component's
handles or teardown mark change with it. -/
theorem Binder.write_rejected_after_teardown {V : Type} (d : Decls V) (c : Nat) (k : Key)
    (v : V) (w : World V) :
    ((w.comps c).tornDown = true →
      Binder.write d c k v w =
        Except.error ("atom write on a component that has been torn down: " ++ k)) ∧
    (∀ ops : List (Op V),
      Binder.write d c k v (World.run d ops (Binder.teardown c w)) =
        Except.error ("atom write on a component that has been torn down: " ++ k)) ∧
    ("atom write on a component that has been torn down: " ++ k) ≠ "" ∧
    (∀ w1 : World V, Binder.write d c k v w ≠ Except.ok w1 ∨ (w.comps c).tornDown = false) ∧
    ((w.comps c).tornDown = false →
      Binder.write d c k v w = Except.ok (w.set d k v) ∧
      (w.set d k v).store = (w.store.set d k v).2 ∧
      (w.set d k v).delivered = w.delivered ++ (w.store.set d k v).1 ∧
      ∀ c1, ((w.set d k v).comps c1).handles = (w.comps c1).handles ∧
        ((w.set d k v).comps c1).tornDown = (w.comps c1).tornDown) := by
  have hrej : ∀ w0 : World V, (w0.comps c).tornDown = true →
      Binder.write d c k v w0 =
        Except.error ("atom write on a component that has been torn down: " ++ k) := by
    intro w0 h0
    simp [Binder.write, h0]
  refine ⟨hrej w, ?_, ?_, ?_, ?_⟩
  · intro ops
    apply hrej
    apply World.run_tornDown
    rw [Binder.teardown_tornDown]
    simp
  · intro h
    have := congrArg String.length h
    rw [String.length_append] at this
    have h0 : "atom write on a component that has been torn down: ".length = 51 := by decide
    rw [h0] at this
    have h1 : "".length = 0 := rfl
    omega
  · intro w1
    cases ht : (w.comps c).tornDown with
    | false => exact Or.inr rfl
    | true => left; rw [hrej w ht]; exact fun h => by cases h
  · intro ht
    refine ⟨by simp [Binder.write, ht], World.set_store d k v w, World.set_delivered d k v w,
      fun c1 => ⟨World.set_handles d k v w c1, World.set_tornDown d k v w c1⟩⟩

/-- C8, at a run: component 3 renders, is torn down, and then writes. -/
theorem Binder.write_rejected_after_teardown_witness :
    Binder.write intDecls 3 "count" 1
        (World.run intDecls [Op.update 3 ["count"], Op.teardown 3] World.empty) =
      Except.error "atom write on a component that has been torn down: count" :=
  (Binder.write_rejected_after_teardown intDecls 3 "count" 1
    (World.run intDecls [Op.update 3 ["count"], Op.teardown 3] World.empty)).1 (by decide)

/-! ## The binder: subscription and coalescing -/

/-- C7: in every world the operations produce from the empty one, a render of a
component that reads the atom `k` once or more leaves the component with exactly one
handle for `k` and exactly one registration with `k`, no request pending for it, and a
following `set` of `k` that changes the value delivers exactly one notification to the
component and leaves exactly one update request for it. -/
theorem Binder.subscribes_once {V : Type} (d : Decls V) (ops : List (Op V)) (c : Nat)
    (k : Key) (ks : List Key) (v : V) (hN : 1 ≤ ks.count k) :
    (((Binder.update d c ks (World.run d ops World.empty)).2.comps c).handles.filter
      (fun x => x.key == k)).length = 1 ∧
    (((Binder.update d c ks (World.run d ops World.empty)).2.store.subsOf k).filter
      (fun sb => sb.listener == Listener.comp c)).length = 1 ∧
    (Binder.update d c ks (World.run d ops World.empty)).2.requests.count c = 0 ∧
    ((d k).same ((Binder.update d c ks (World.run d ops World.empty)).2.store.cell d k).value
        v = false →
      (((Binder.update d c ks (World.run d ops World.empty)).2.store.set d k v).1.filter
        (fun n => n.sub.listener == Listener.comp c)).length = 1 ∧
      ((Binder.update d c ks (World.run d ops World.empty)).2.set d k v).requests.count c
        = 1) := by
  have hw : (World.run d ops World.empty).SubsOk := World.SubsOk.empty.run d ops
  have hr : (World.run d ops World.empty).ReqsOk := World.ReqsOk.reqs_empty.reqs_run d ops
  generalize World.run d ops World.empty = w at hw hr
  have hk : k ∈ ks := List.count_pos_iff.1 hN
  have hw1 : (Binder.update d c ks w).2.SubsOk := hw.update d c ks
  have hr1 : (Binder.update d c ks w).2.ReqsOk := hr.reqs_update d c ks
  have hs : Binder.subscribed c k (Binder.update d c ks w).2 = true :=
    Binder.update_subscribed d c k ks w hk
  have hone := hw1.one_subscription c k hs
  have hclean : ((Binder.update d c ks w).2.comps c).dirty = false := by
    rw [Binder.update_dirty, if_pos rfl]
  refine ⟨hone.1, hone.2, hr1.count_clean c hclean, ?_⟩
  intro hv
  exact ⟨hw1.set_notifies_once d c k v hs hv,
    (hr1.reqs_set d k v).count_dirty c (hw1.set_marks d c k v hs hv)⟩

/-- C7, at a run: component 1 reads `a` three times in one render; one registration, and
a write of 5 over the default 0 leaves one request. -/
theorem Binder.subscribes_once_witness :
    1 ≤ ["a", "a", "a"].count "a" ∧
    (((Binder.update intDecls 1 ["a", "a", "a"] (World.run intDecls [] World.empty)).2.store.subsOf
      "a").filter (fun sb => sb.listener == Listener.comp 1)).length = 1 ∧
    ((Binder.update intDecls 1 ["a", "a", "a"] (World.run intDecls [] World.empty)).2.set
      intDecls "a" 5).requests.count 1 = 1 :=
  ⟨by decide,
   (Binder.subscribes_once intDecls [] 1 "a" ["a", "a", "a"] 5 (by decide)).2.1,
   ((Binder.subscribes_once intDecls [] 1 "a" ["a", "a", "a"] 5 (by decide)).2.2.2
      (by decide)).2⟩

/-- C9: in every world the operations produce from the empty one, for a component
subscribed to two different atoms `a` and `b`, a changing `set` of `a` followed by a
changing `set` of `b` with no update in between each deliver one notification to the
component and together leave exactly one update request for it, none when no request was
pending before; neither `set` runs a render of the component; the render runs in the
update the host performs afterwards, once, and clears the request. -/
theorem Binder.coalesces {V : Type} (d : Decls V) (ops : List (Op V)) (c : Nat) (a b : Key)
    (va vb : V) (ks : List Key) (hab : a ≠ b)
    (hsa : Binder.subscribed c a (World.run d ops World.empty) = true)
    (hsb : Binder.subscribed c b (World.run d ops World.empty) = true)
    (hca : (d a).same ((World.run d ops World.empty).store.cell d a).value va = false)
    (hcb : (d b).same ((World.run d ops World.empty).store.cell d b).value vb = false) :
    (((World.run d ops World.empty).store.set d a va).1.filter
      (fun n => n.sub.listener == Listener.comp c)).length = 1 ∧
    ((((World.run d ops World.empty).set d a va).store.set d b vb).1.filter
      (fun n => n.sub.listener == Listener.comp c)).length = 1 ∧
    ((World.run d ops World.empty).set d a va).requests.count c = 1 ∧
    (((World.run d ops World.empty).set d a va).set d b vb).requests.count c = 1 ∧
    (((World.run d ops World.empty).comps c).dirty = false →
      (World.run d ops World.empty).requests.count c = 0) ∧
    ((((World.run d ops World.empty).set d a va).set d b vb).comps c).renders =
      ((World.run d ops World.empty).comps c).renders ∧
    (((World.run d ops World.empty).set d a va).comps c).renders =
      ((World.run d ops World.empty).comps c).renders ∧
    ((Binder.update d c ks (((World.run d ops World.empty).set d a va).set d b vb)).2.comps
      c).renders = ((World.run d ops World.empty).comps c).renders + 1 ∧
    (Binder.update d c ks (((World.run d ops World.empty).set d a va).set d b vb)).2.requests.count
      c = 0 := by
  have hw : (World.run d ops World.empty).SubsOk := World.SubsOk.empty.run d ops
  have hr : (World.run d ops World.empty).ReqsOk := World.ReqsOk.reqs_empty.reqs_run d ops
  generalize World.run d ops World.empty = w at hw hr hsa hsb hca hcb
  have hw1 : (w.set d a va).SubsOk := hw.set d a va
  have hsb1 : Binder.subscribed c b (w.set d a va) = true := by
    rw [World.set_subscribed]; exact hsb
  have hcb1 : (d b).same ((w.set d a va).store.cell d b).value vb = false := by
    rw [World.set_store, Store.cell_set, if_neg (fun e => hab e.symm)]; exact hcb
  have hd1 : ((w.set d a va).comps c).dirty = true := hw.set_marks d c a va hsa hca
  have hr1 : (w.set d a va).ReqsOk := hr.reqs_set d a va
  have hr2 : ((w.set d a va).set d b vb).ReqsOk := hr1.reqs_set d b vb
  have hd2 : (((w.set d a va).set d b vb).comps c).dirty = true :=
    World.set_dirty_mono d b vb _ c hd1
  refine ⟨hw.set_notifies_once d c a va hsa hca, hw1.set_notifies_once d c b vb hsb1 hcb1,
    hr1.count_dirty c hd1, hr2.count_dirty c hd2, hr.count_clean c, ?_, ?_, ?_, ?_⟩
  · rw [World.set_renders, World.set_renders]
  · rw [World.set_renders]
  · rw [Binder.update_renders, if_pos rfl, World.set_renders, World.set_renders]
  · apply (hr2.reqs_update d c ks).count_clean
    rw [Binder.update_dirty, if_pos rfl]

/-- C9, at a run: component 1 renders reading `a` and `b`; then `a` and `b` are written. -/
theorem Binder.coalesces_witness :
    (((World.run intDecls [Op.update 1 ["a", "b"]] World.empty).set intDecls "a" 1).set
      intDecls "b" 2).requests.count 1 = 1 ∧
    ((((World.run intDecls [Op.update 1 ["a", "b"]] World.empty).set intDecls "a" 1).set
      intDecls "b" 2).comps 1).renders =
        ((World.run intDecls [Op.update 1 ["a", "b"]] World.empty).comps 1).renders :=
  ⟨(Binder.coalesces intDecls [Op.update 1 ["a", "b"]] 1 "a" "b" 1 2 ["a", "b"] (by decide)
      (by decide) (by decide) (by decide) (by decide)).2.2.2.1,
   (Binder.coalesces intDecls [Op.update 1 ["a", "b"]] 1 "a" "b" 1 2 ["a", "b"] (by decide)
      (by decide) (by decide) (by decide) (by decide)).2.2.2.2.2.1⟩

end AtomDemo
